import Mathlib

/-!
Verification of the multiplexed streaming proxy of Multi-Model-Chat.

The development embeds, as executable Lean definitions, the server-side
chat-proxy route (`callOpenRouter`, `makeAIRequest`, the heartbeat/staleness
timer of the POST handler), the consumer-side `SSEConnectionManager`
(`handleSSEEvent`, `handleStreamEnd`, `handleUnexpectedDisconnection`,
`processStream`) and the `ConnectionPool`
(`createConnection`, `closeConnection`, `closeAllConnections`,
`cleanupStaleConnections`, `handleEvent`), and proves the spec's testable
properties about them.
-/

/-! ## Character-list string helpers

JavaScript `String.prototype.includes` and `String.prototype.split` are used
by the source for retry classification and event-name parsing.  They are
modelled on `List Char` so that everything evaluates inside the kernel. -/

/-- Is `pat` a prefix of `s`? -/
def isPrefixChars : List Char → List Char → Bool
  | [], _ => true
  | _ :: _, [] => false
  | p :: ps, c :: cs => p == c && isPrefixChars ps cs

/-- Does `pat` occur anywhere inside `s`?  Character-list version of
JavaScript `s.includes(pat)`. -/
def containsSub (pat : List Char) : List Char → Bool
  | [] => isPrefixChars pat []
  | c :: cs => isPrefixChars pat (c :: cs) || containsSub pat cs

/-- JavaScript `s.includes(pat)` on Lean strings. -/
def strIncludes (s pat : String) : Bool :=
  containsSub pat.toList s.toList

lemma isPrefixChars_self_append (p t : List Char) :
    isPrefixChars p (p ++ t) = true := by
  induction p with
  | nil => rfl
  | cons c cs ih => simp [isPrefixChars, ih]

lemma containsSub_append_right (pat s t : List Char)
    (h : containsSub pat s = true) : containsSub pat (t ++ s) = true := by
  induction t with
  | nil => simpa using h
  | cons c cs ih => simp [containsSub, ih]

lemma containsSub_self_append (pat t : List Char) :
    containsSub pat (pat ++ t) = true := by
  cases pat with
  | nil => cases t <;> simp [containsSub, isPrefixChars]
  | cons c cs =>
    have h := isPrefixChars_self_append (c :: cs) t
    simp only [List.cons_append] at h ⊢
    simp [containsSub, h]

/-! ## Connection Pool

Embeds the `ConnectionPool` class of the source: an insertion-ordered map
from connection id to `PooledConnection` (a JavaScript `Map`, modelled as an
association list with unique keys) together with an `activeConnections`
counter.  The counter is modelled as an integer so that the claim that it
never becomes negative is meaningful. -/

/-- Status of a pooled connection, as in the `PooledConnection` interface. -/
inductive ConnStatus where
  | connecting
  | connected
  | disconnected
  | error
deriving DecidableEq, Repr

/-- One pooled connection.  The `manager` object is owned by the pool entry;
only the fields the pool logic reads are modelled. -/
structure PooledConnection where
  id : String
  models : List String
  status : ConnStatus
  createdAt : ℕ
deriving DecidableEq, Repr

/-- The `ConnectionPool` state: its `connections` map and the
`activeConnections` counter. -/
structure ConnectionPool where
  connections : List (String × PooledConnection)
  activeConnections : ℤ
deriving DecidableEq, Repr

/-- `this.connections.get(id)`. -/
def lookupConn (p : ConnectionPool) (id : String) : Option PooledConnection :=
  (p.connections.find? (fun e => e.1 == id)).map (fun e => e.2)

/-- `removeConnection(connectionId)`: early-returns when the id is absent,
otherwise deletes the entry and decrements `activeConnections` only when the
counter is positive. -/
def removeConnection (p : ConnectionPool) (id : String) : ConnectionPool :=
  match lookupConn p id with
  | none => p
  | some _ =>
    { connections := p.connections.filter (fun e => ¬ e.1 = id),
      activeConnections :=
        if 0 < p.activeConnections then p.activeConnections - 1
        else p.activeConnections }

/-- `closeConnection(connectionId)`: early-returns when the id is absent,
otherwise disconnects the manager (no pool-state effect) and removes the
entry. -/
def closeConnection (p : ConnectionPool) (id : String) : ConnectionPool :=
  match lookupConn p id with
  | none => p
  | some _ => removeConnection p id

/-- `closeAllConnections()`: closes every id present when the call starts. -/
def closeAllConnections (p : ConnectionPool) : ConnectionPool :=
  (p.connections.map (fun e => e.1)).foldl closeConnection p

/-- The fresh `PooledConnection` record built by `createConnection`. -/
def mkPooledConnection (id : String) (models : List String) (now : ℕ) :
    PooledConnection :=
  { id := id, models := models, status := ConnStatus.connecting, createdAt := now }

/-- `createConnection(messages, models, connectionId)`: waits for a slot (no
pool-state effect), closes any existing connection with the same id, inserts
the new entry, increments the counter, and on a failed connect removes the
entry again before rethrowing.  `connectOk` tells whether the
`manager.connect` call succeeded. -/
def createConnection (p : ConnectionPool) (id : String) (models : List String)
    (now : ℕ) (connectOk : Bool) : ConnectionPool :=
  let p1 := if (lookupConn p id).isSome then closeConnection p id else p
  let p2 : ConnectionPool :=
    { connections := p1.connections ++ [(id, mkPooledConnection id models now)],
      activeConnections := p1.activeConnections + 1 }
  if connectOk then p2 else removeConnection p2 id

/-- The per-entry condition tested by `cleanupStaleConnections`:
`now - connection.createdAt > maxAge` and a terminal status. -/
def staleCond (now maxAge : ℕ) (e : String × PooledConnection) : Prop :=
  maxAge < now - e.2.createdAt ∧
    (e.2.status = ConnStatus.disconnected ∨ e.2.status = ConnStatus.error)

instance (now maxAge : ℕ) (e : String × PooledConnection) :
    Decidable (staleCond now maxAge e) := by
  unfold staleCond
  infer_instance

/-- `cleanupStaleConnections(maxAge)`: iterates the map, removes every entry
whose age exceeds `maxAge` and whose status is `disconnected` or `error`, and
returns the pool together with the count removed. -/
def cleanupStaleConnections (p : ConnectionPool) (now maxAge : ℕ) :
    ConnectionPool × ℕ :=
  p.connections.foldl
    (fun acc e =>
      if staleCond now maxAge e then (removeConnection acc.1 e.1, acc.2 + 1)
      else acc)
    (p, 0)

/-- `handleStatusChange(connectionId, status)` without its delayed cleanup:
early-returns when the id is absent, otherwise overwrites the stored status. -/
def handleStatusChange (p : ConnectionPool) (id : String) (st : ConnStatus) :
    ConnectionPool :=
  match lookupConn p id with
  | none => p
  | some _ =>
    { p with
      connections :=
        p.connections.map
          (fun e => if e.1 = id then (e.1, { e.2 with status := st }) else e) }

/-- The delayed-removal callback scheduled by `handleStatusChange` for
terminal statuses: if the id is still present after the grace period it is
removed. -/
def delayedRemove (p : ConnectionPool) (id : String) : ConnectionPool :=
  if (lookupConn p id).isSome then removeConnection p id else p

/-- An event arriving at the pool from one of its managers. -/
structure PoolInEvent where
  modelId : String
  type : String
  data : String
deriving DecidableEq, Repr

/-- The event forwarded to the global handler, enriched with the connection
context. -/
structure EnhancedPoolEvent where
  base : PoolInEvent
  connectionId : String
  timestamp : ℕ
deriving DecidableEq, Repr

/-- `handleEvent(connectionId, event)`: drops the event when the connection
is no longer in the map, otherwise forwards it enriched with the connection
id and a timestamp. -/
def handleEvent (p : ConnectionPool) (connectionId : String)
    (ev : PoolInEvent) (now : ℕ) : Option EnhancedPoolEvent :=
  match lookupConn p connectionId with
  | none => none
  | some _ => some { base := ev, connectionId := connectionId, timestamp := now }

/-- The pool operations whose sequences the counter invariant quantifies
over. -/
inductive PoolOp where
  | create (id : String) (models : List String) (now : ℕ) (connectOk : Bool)
  | close (id : String)
  | closeAll
  | cleanup (now maxAge : ℕ)
  | statusChange (id : String) (st : ConnStatus)
  | delayedRemoveOp (id : String)
deriving DecidableEq, Repr

/-- Apply one pool operation. -/
def applyPoolOp (p : ConnectionPool) : PoolOp → ConnectionPool
  | PoolOp.create id models now ok => createConnection p id models now ok
  | PoolOp.close id => closeConnection p id
  | PoolOp.closeAll => closeAllConnections p
  | PoolOp.cleanup now maxAge => (cleanupStaleConnections p now maxAge).1
  | PoolOp.statusChange id st => handleStatusChange p id st
  | PoolOp.delayedRemoveOp id => delayedRemove p id

/-- The pool as constructed: empty map, zero counter. -/
def emptyPool : ConnectionPool := { connections := [], activeConnections := 0 }

/-- Run a sequence of pool operations from the freshly constructed pool. -/
def applyPoolOps (ops : List PoolOp) : ConnectionPool :=
  ops.foldl applyPoolOp emptyPool

/-- Well-formedness of a pool state: unique keys and an accurate counter. -/
def poolWF (p : ConnectionPool) : Prop :=
  (p.connections.map (fun e => e.1)).Nodup ∧
    p.activeConnections = p.connections.length

/-! ### Pool lemmas -/

lemma lookupConn_isSome_iff (p : ConnectionPool) (id : String) :
    (lookupConn p id).isSome = true ↔ id ∈ p.connections.map (fun e => e.1) := by
  unfold lookupConn
  cases h : p.connections.find? (fun e => e.1 == id) with
  | none =>
    simp only [Option.map_none', Option.isSome_none, Bool.false_eq_true,
      false_iff]
    intro hmem
    rcases List.mem_map.mp hmem with ⟨e, he, heq⟩
    have := List.find?_eq_none.mp h e he
    simp [heq] at this
  | some e =>
    simp only [Option.map_some', Option.isSome_some, true_iff]
    have hpe := List.find?_some h
    have hme := List.mem_of_find?_eq_some h
    have heq : e.1 = id := by simpa using hpe
    exact heq ▸ List.mem_map_of_mem (fun e => e.1) hme

lemma lookupConn_eq_none_iff (p : ConnectionPool) (id : String) :
    lookupConn p id = none ↔ id ∉ p.connections.map (fun e => e.1) := by
  rw [← lookupConn_isSome_iff]
  cases lookupConn p id <;> simp

lemma filter_eq_self_of_key_not_mem (l : List (String × PooledConnection))
    (id : String) (h : id ∉ l.map (fun e => e.1)) :
    l.filter (fun e => ¬ e.1 = id) = l := by
  induction l with
  | nil => rfl
  | cons a l ih =>
    simp only [List.map_cons, List.mem_cons, not_or] at h
    rcases h with ⟨h1, h2⟩
    have ha : (decide (¬ a.1 = id)) = true := by
      simp only [decide_eq_true_eq]
      exact fun heq => h1 heq.symm
    rw [List.filter_cons, if_pos ha, ih h2]

lemma closeConnection_connections (p : ConnectionPool) (id : String) :
    (closeConnection p id).connections
      = p.connections.filter (fun e => ¬ e.1 = id) := by
  unfold closeConnection removeConnection
  cases h : lookupConn p id with
  | none =>
    have hnm := (lookupConn_eq_none_iff p id).mp h
    simp only []
    rw [filter_eq_self_of_key_not_mem p.connections id hnm]
  | some c => simp

lemma filter_ne_key_not_mem (l : List (String × PooledConnection)) (id : String) :
    id ∉ (l.filter (fun e => ¬ e.1 = id)).map (fun e => e.1) := by
  intro hmem
  rcases List.mem_map.mp hmem with ⟨e, he, heq⟩
  rcases List.mem_filter.mp he with ⟨_, hne⟩
  simp only [decide_eq_true_eq] at hne
  exact hne heq

lemma closeConnection_lookup_self (p : ConnectionPool) (id : String) :
    lookupConn (closeConnection p id) id = none := by
  rw [lookupConn_eq_none_iff, closeConnection_connections]
  exact filter_ne_key_not_mem _ _

lemma filter_ne_key_length (l : List (String × PooledConnection)) (id : String)
    (hn : (l.map (fun e => e.1)).Nodup) (hm : id ∈ l.map (fun e => e.1)) :
    (l.filter (fun e => ¬ e.1 = id)).length + 1 = l.length := by
  induction l with
  | nil => simp at hm
  | cons a l ih =>
    simp only [List.map_cons, List.nodup_cons] at hn
    rcases hn with ⟨hna, hnl⟩
    by_cases ha : a.1 = id
    · subst ha
      have hfl : l.filter (fun e => ¬ e.1 = a.1) = l :=
        filter_eq_self_of_key_not_mem l a.1 hna
      have hc : (decide (¬ a.1 = a.1)) = false := by simp
      rw [List.filter_cons, if_neg (by simp [hc]), hfl]
      simp
    · have hm' : id ∈ l.map (fun e => e.1) := by
        rcases List.mem_map.mp hm with ⟨e, he, heq⟩
        rcases List.mem_cons.mp he with h | h
        · exact absurd (h ▸ heq) ha
        · exact heq ▸ List.mem_map_of_mem (fun e => e.1) h
      have := ih hnl hm'
      simp only [List.filter_cons, decide_eq_true_eq]
      rw [if_pos ha]
      simp only [List.length_cons]
      omega

lemma filter_keys_sublist (l : List (String × PooledConnection))
    (q : String × PooledConnection → Bool) :
    ((l.filter q).map (fun e => e.1)).Sublist (l.map (fun e => e.1)) :=
  (List.filter_sublist l).map (fun e => e.1)

lemma removeConnection_wf (p : ConnectionPool) (id : String)
    (h : poolWF p) : poolWF (removeConnection p id) := by
  rcases h with ⟨hn, hc⟩
  unfold removeConnection
  cases hq : lookupConn p id with
  | none => exact ⟨hn, hc⟩
  | some c =>
    have hm : id ∈ p.connections.map (fun e => e.1) := by
      rw [← lookupConn_isSome_iff]
      simp [hq]
    have hlen := filter_ne_key_length p.connections id hn hm
    have hpos : 0 < p.activeConnections := by
      have : p.connections ≠ [] := by
        intro hnil
        rw [hnil] at hm
        simp at hm
      have : 0 < p.connections.length := List.length_pos.mpr this
      omega
    constructor
    · exact (filter_keys_sublist p.connections
        (fun e => ¬ e.1 = id)).nodup hn
    · simp only [if_pos hpos]
      rw [hc]
      omega

lemma closeConnection_wf (p : ConnectionPool) (id : String)
    (h : poolWF p) : poolWF (closeConnection p id) := by
  unfold closeConnection
  cases hq : lookupConn p id with
  | none => exact h
  | some c => exact removeConnection_wf p id h

lemma closeAllConnections_wf (p : ConnectionPool) (h : poolWF p) :
    poolWF (closeAllConnections p) := by
  unfold closeAllConnections
  generalize p.connections.map (fun e => e.1) = ks
  induction ks generalizing p with
  | nil => exact h
  | cons k ks ih => exact ih (closeConnection p k) (closeConnection_wf p k h)

lemma createConnection_wf (p : ConnectionPool) (id : String)
    (models : List String) (now : ℕ) (ok : Bool) (h : poolWF p) :
    poolWF (createConnection p id models now ok) := by
  unfold createConnection
  set p1 := if (lookupConn p id).isSome then closeConnection p id else p with hp1
  have h1 : poolWF p1 := by
    rw [hp1]
    by_cases hs : (lookupConn p id).isSome = true
    · rw [if_pos hs]
      exact closeConnection_wf p id h
    · rw [if_neg hs]
      exact h
  have hid : id ∉ p1.connections.map (fun e => e.1) := by
    rw [hp1]
    by_cases hs : (lookupConn p id).isSome = true
    · rw [if_pos hs, closeConnection_connections]
      exact filter_ne_key_not_mem _ _
    · rw [if_neg hs, ← lookupConn_eq_none_iff]
      cases hl : lookupConn p id with
      | none => rfl
      | some c => exact absurd (by simp [hl]) hs
  rcases h1 with ⟨hn1, hc1⟩
  have hwf2 : poolWF
      { connections := p1.connections ++ [(id, mkPooledConnection id models now)],
        activeConnections := p1.activeConnections + 1 } := by
    constructor
    · simp only [List.map_append, List.map_cons, List.map_nil]
      rw [List.nodup_append]
      refine ⟨hn1, List.nodup_singleton id, ?_⟩
      intro a ha hb
      simp only [List.mem_singleton] at hb
      exact hid (hb ▸ ha)
    · simp only [List.length_append, List.length_cons, List.length_nil]
      rw [hc1]
      push_cast
      omega
  split
  · exact hwf2
  · exact removeConnection_wf _ id hwf2

lemma handleStatusChange_wf (p : ConnectionPool) (id : String)
    (st : ConnStatus) (h : poolWF p) : poolWF (handleStatusChange p id st) := by
  rcases h with ⟨hn, hc⟩
  unfold handleStatusChange
  cases hq : lookupConn p id with
  | none => exact ⟨hn, hc⟩
  | some c =>
    have hkeys : (p.connections.map
        (fun e => if e.1 = id then (e.1, { e.2 with status := st }) else e)).map
          (fun e => e.1) = p.connections.map (fun e => e.1) := by
      rw [List.map_map]
      apply List.map_congr_left
      intro e _
      by_cases he : e.1 = id <;> simp [he]
    constructor
    · simpa [hkeys] using hn
    · simpa [hkeys, List.length_map] using hc

lemma delayedRemove_wf (p : ConnectionPool) (id : String) (h : poolWF p) :
    poolWF (delayedRemove p id) := by
  unfold delayedRemove
  split
  · exact removeConnection_wf p id h
  · exact h

lemma cleanupStaleConnections_wf (p : ConnectionPool) (now maxAge : ℕ)
    (h : poolWF p) : poolWF (cleanupStaleConnections p now maxAge).1 := by
  unfold cleanupStaleConnections
  generalize p.connections = l
  suffices hgen : ∀ (l : List (String × PooledConnection))
      (acc : ConnectionPool × ℕ), poolWF acc.1 →
      poolWF (l.foldl
        (fun acc e =>
          if staleCond now maxAge e then (removeConnection acc.1 e.1, acc.2 + 1)
          else acc) acc).1 by
    exact hgen l (p, 0) h
  intro l
  induction l with
  | nil => intro acc hacc; exact hacc
  | cons e l ih =>
    intro acc hacc
    simp only [List.foldl_cons]
    split
    · exact ih _ (removeConnection_wf acc.1 e.1 hacc)
    · exact ih _ hacc

lemma applyPoolOp_wf (p : ConnectionPool) (op : PoolOp) (h : poolWF p) :
    poolWF (applyPoolOp p op) := by
  cases op with
  | create id models now ok => exact createConnection_wf p id models now ok h
  | close id => exact closeConnection_wf p id h
  | closeAll => exact closeAllConnections_wf p h
  | cleanup now maxAge => exact cleanupStaleConnections_wf p now maxAge h
  | statusChange id st => exact handleStatusChange_wf p id st h
  | delayedRemoveOp id => exact delayedRemove_wf p id h

lemma applyPoolOps_wf (ops : List PoolOp) : poolWF (applyPoolOps ops) := by
  unfold applyPoolOps
  suffices hgen : ∀ (ops : List PoolOp) (p : ConnectionPool), poolWF p →
      poolWF (ops.foldl applyPoolOp p) by
    exact hgen ops emptyPool ⟨List.nodup_nil, rfl⟩
  intro ops
  induction ops with
  | nil => intro p hp; exact hp
  | cons op ops ih =>
    intro p hp
    exact ih (applyPoolOp p op) (applyPoolOp_wf p op hp)

/-! ### Further pool lemmas for the claim theorems -/

lemma removeConnection_connections_of_some (q : ConnectionPool) (id : String)
    (c : PooledConnection) (h : lookupConn q id = some c) :
    (removeConnection q id).connections
      = q.connections.filter (fun e => ¬ e.1 = id) := by
  unfold removeConnection
  rw [h]

lemma lookupConn_filter_ne (q : ConnectionPool) (k id : String) (a : ℤ)
    (h : ¬ id = k) :
    lookupConn ⟨q.connections.filter (fun e => ¬ e.1 = k), a⟩ id
      = lookupConn q id := by
  unfold lookupConn
  simp only []
  generalize q.connections = l
  induction l with
  | nil => rfl
  | cons e l ih =>
    by_cases hek : e.1 = k
    · have hd : (decide (¬ e.1 = k)) = false := by simp [hek]
      have hne : (e.1 == id) = false := by
        simp only [beq_eq_false_iff_ne, ne_eq]
        intro heq
        exact h (heq.symm.trans hek)
      rw [List.filter_cons, if_neg (by simp [hd])]
      rw [List.find?_cons_of_neg _ (by simp [hne])]
      exact ih
    · have hd : (decide (¬ e.1 = k)) = true := by simp [hek]
      rw [List.filter_cons, if_pos hd]
      by_cases hei : e.1 = id
      · rw [List.find?_cons_of_pos _ (by simp [hei]),
          List.find?_cons_of_pos _ (by simp [hei])]
      · rw [List.find?_cons_of_neg _ (by simp [hei]),
          List.find?_cons_of_neg _ (by simp [hei])]
        exact ih

lemma lookupConn_self (p : ConnectionPool)
    (hn : (p.connections.map (fun e => e.1)).Nodup) :
    ∀ e ∈ p.connections, lookupConn p e.1 = some e.2 := by
  unfold lookupConn
  generalize hl : p.connections = l
  rw [hl] at hn
  clear hl
  induction l with
  | nil => intro e he; simp at he
  | cons a l ih =>
    simp only [List.map_cons, List.nodup_cons] at hn
    rcases hn with ⟨hna, hnl⟩
    intro e he
    rcases List.mem_cons.mp he with rfl | hel
    · rw [List.find?_cons_of_pos _ (by simp)]
      rfl
    · have hne : (a.1 == e.1) = false := by
        simp only [beq_eq_false_iff_ne, ne_eq]
        intro heq
        exact hna (heq ▸ List.mem_map_of_mem (fun x => x.1) hel)
      rw [List.find?_cons_of_neg _ (by simp [hne])]
      exact ih hnl e hel

lemma keys_nodup_entry_inj (l : List (String × PooledConnection))
    (hn : (l.map (fun e => e.1)).Nodup) :
    ∀ e ∈ l, ∀ e' ∈ l, e.1 = e'.1 → e = e' := by
  induction l with
  | nil => intro e he; simp at he
  | cons a l ih =>
    simp only [List.map_cons, List.nodup_cons] at hn
    rcases hn with ⟨hna, hnl⟩
    intro e he e' he' hkey
    rcases List.mem_cons.mp he with rfl | hel
    · rcases List.mem_cons.mp he' with rfl | hel'
      · rfl
      · exact absurd (hkey ▸ List.mem_map_of_mem (fun x => x.1) hel') hna
    · rcases List.mem_cons.mp he' with rfl | hel'
      · exact absurd (hkey ▸ List.mem_map_of_mem (fun x => x.1) hel) hna
      · exact ih hnl e hel e' hel' hkey

lemma foldl_closeConnection_connections (ks : List String) (p : ConnectionPool) :
    (ks.foldl closeConnection p).connections
      = p.connections.filter (fun e => ¬ e.1 ∈ ks) := by
  induction ks generalizing p with
  | nil =>
    simp only [List.foldl_nil]
    rw [eq_comm, List.filter_eq_self]
    intro e _
    simp
  | cons k ks ih =>
    simp only [List.foldl_cons]
    rw [ih (closeConnection p k), closeConnection_connections, List.filter_filter]
    apply List.filter_congr
    intro e _
    simp only [List.mem_cons, not_or, decide_not]
    cases hek : decide (e.1 = k) <;> cases hmem : decide (e.1 ∈ ks) <;>
      simp_all

lemma cleanup_go (now maxAge : ℕ) :
    ∀ (l : List (String × PooledConnection)) (q : ConnectionPool) (c : ℕ),
      (∀ e ∈ l, lookupConn q e.1 = some e.2) →
      (l.map (fun e => e.1)).Nodup →
      (l.foldl
          (fun acc e =>
            if staleCond now maxAge e then (removeConnection acc.1 e.1, acc.2 + 1)
            else acc) (q, c)).1.connections
        = q.connections.filter
            (fun e =>
              ¬ e.1 ∈ (l.filter (fun x => staleCond now maxAge x)).map
                (fun x => x.1)) ∧
      (l.foldl
          (fun acc e =>
            if staleCond now maxAge e then (removeConnection acc.1 e.1, acc.2 + 1)
            else acc) (q, c)).2
        = c + l.countP (fun x => staleCond now maxAge x) := by
  intro l
  induction l with
  | nil =>
    intro q c _ _
    constructor
    · simp only [List.foldl_nil, List.filter_nil, List.map_nil]
      rw [eq_comm, List.filter_eq_self]
      intro e _
      simp
    · simp
  | cons e l ih =>
    intro q c hl hn
    simp only [List.map_cons, List.nodup_cons] at hn
    rcases hn with ⟨hne, hnl⟩
    by_cases hst : staleCond now maxAge e
    · have hlook : lookupConn q e.1 = some e.2 := hl e (List.mem_cons_self e l)
      have hq' : (removeConnection q e.1).connections
          = q.connections.filter (fun x => ¬ x.1 = e.1) :=
        removeConnection_connections_of_some q e.1 e.2 hlook
      have hl' : ∀ x ∈ l, lookupConn (removeConnection q e.1) x.1 = some x.2 := by
        intro x hx
        have hxe : ¬ x.1 = e.1 := by
          intro heq
          exact hne (heq ▸ List.mem_map_of_mem (fun y => y.1) hx)
        have hrw : removeConnection q e.1
            = ⟨q.connections.filter (fun y => ¬ y.1 = e.1),
               (removeConnection q e.1).activeConnections⟩ := by
          cases hrc : removeConnection q e.1 with
          | mk conns act =>
            simp only []
            congr 1
            rw [← hq', hrc]
        rw [hrw, lookupConn_filter_ne q e.1 x.1 _ hxe]
        exact hl x (List.mem_cons_of_mem e hx)
      have := ih (removeConnection q e.1) (c + 1) hl' hnl
      rcases this with ⟨h1, h2⟩
      constructor
      · simp only [List.foldl_cons, if_pos hst]
        rw [h1, hq', List.filter_filter]
        have hfe : (e :: l).filter (fun x => staleCond now maxAge x)
            = e :: l.filter (fun x => staleCond now maxAge x) := by
          rw [List.filter_cons, if_pos (by simpa using hst)]
        rw [hfe]
        apply List.filter_congr
        intro x _
        rw [List.map_cons]
        by_cases hx1 : x.1 = e.1
        · simp [hx1]
        · by_cases hx2 : x.1 ∈ (l.filter
              (fun y => staleCond now maxAge y)).map (fun y => y.1)
          · simp [hx1, hx2]
          · simp [hx1, hx2]
      · simp only [List.foldl_cons, if_pos hst]
        rw [h2, List.countP_cons]
        simp only [decide_eq_true_eq]
        rw [if_pos hst]
        omega
    · have := ih q c (fun x hx => hl x (List.mem_cons_of_mem e hx)) hnl
      rcases this with ⟨h1, h2⟩
      constructor
      · simp only [List.foldl_cons, if_neg hst]
        rw [h1]
        have hfe : (e :: l).filter (fun x => staleCond now maxAge x)
            = l.filter (fun x => staleCond now maxAge x) := by
          rw [List.filter_cons, if_neg (by simpa using hst)]
        rw [hfe]
      · simp only [List.foldl_cons, if_neg hst]
        rw [h2, List.countP_cons]
        simp only [decide_eq_true_eq]
        rw [if_neg hst]
        omega

/-! ### Claim theorems about the Connection Pool -/

/-- C6: after `closeAllConnections()` returns, the pool's connection map is
empty, and `handleEvent` forwards no event that arrives afterwards for any
connection id, even one whose upstream adapters were mid-stream. -/
theorem spec_c6_closeAll_empties_and_silences (p : ConnectionPool) :
    (closeAllConnections p).connections = [] ∧
    ∀ (id : String) (ev : PoolInEvent) (now : ℕ),
      handleEvent (closeAllConnections p) id ev now = none := by
  have hconn : (closeAllConnections p).connections = [] := by
    unfold closeAllConnections
    rw [foldl_closeConnection_connections, List.filter_eq_nil_iff]
    intro e he
    simp only [decide_not, Bool.not_eq_true', decide_eq_false_iff_not, not_not]
    exact List.mem_map_of_mem (fun x => x.1) he
  refine ⟨hconn, ?_⟩
  intro id ev now
  unfold handleEvent lookupConn
  rw [hconn]
  rfl

/-- C7: `cleanupStaleConnections(maxAge)` removes exactly the connections
whose status is `disconnected` or `error` and whose age exceeds `maxAge`,
returns the count removed, and never removes a `connecting` or `connected`
connection regardless of its age. -/
theorem spec_c7_cleanupStale (p : ConnectionPool) (now maxAge : ℕ)
    (hn : (p.connections.map (fun e => e.1)).Nodup) :
    (cleanupStaleConnections p now maxAge).1.connections
        = p.connections.filter (fun e => ¬ staleCond now maxAge e) ∧
    (cleanupStaleConnections p now maxAge).2
        = (p.connections.filter (fun e => staleCond now maxAge e)).length ∧
    ∀ e ∈ p.connections,
      (e.2.status = ConnStatus.connecting ∨ e.2.status = ConnStatus.connected) →
      e ∈ (cleanupStaleConnections p now maxAge).1.connections := by
  have hgo := cleanup_go now maxAge p.connections p 0 (lookupConn_self p hn) hn
  rcases hgo with ⟨h1, h2⟩
  have hconn : (cleanupStaleConnections p now maxAge).1.connections
      = p.connections.filter (fun e => ¬ staleCond now maxAge e) := by
    unfold cleanupStaleConnections
    rw [h1]
    apply List.filter_congr
    intro e he
    have hiff : (e.1 ∈ (p.connections.filter
        (fun x => staleCond now maxAge x)).map (fun x => x.1))
        ↔ staleCond now maxAge e := by
      constructor
      · intro hm
        rcases List.mem_map.mp hm with ⟨e', he', hkey⟩
        rcases List.mem_filter.mp he' with ⟨he'c, hst⟩
        have : e' = e := keys_nodup_entry_inj p.connections hn e' he'c e he hkey
        rw [← this]
        simpa using hst
      · intro hst
        have hmem : e ∈ p.connections.filter
            (fun x => staleCond now maxAge x) := by
          apply List.mem_filter.mpr
          exact ⟨he, decide_eq_true hst⟩
        exact List.mem_map_of_mem (fun x => x.1) hmem
    by_cases hst : staleCond now maxAge e
    · simp [hiff, hst]
    · simp [hiff, hst]
  refine ⟨hconn, ?_, ?_⟩
  · unfold cleanupStaleConnections
    rw [h2, List.countP_eq_length_filter]
    simp
  · intro e he hstatus
    rw [hconn]
    apply List.mem_filter.mpr
    refine ⟨he, ?_⟩
    simp only [decide_not, Bool.not_eq_true', decide_eq_false_iff_not]
    intro hst
    rcases hst with ⟨_, hterm⟩
    rcases hstatus with h | h <;> rcases hterm with h' | h' <;>
      rw [h] at h' <;> exact ConnStatus.noConfusion h'

def cwIdX : String := "x"

def cwIdY : String := "y"

def cwIdZ : String := "z"

def c7Pool : ConnectionPool :=
  { connections :=
      [(cwIdX, { id := cwIdX, models := [], status := ConnStatus.disconnected,
                 createdAt := 0 }),
       (cwIdY, { id := cwIdY, models := [], status := ConnStatus.connected,
                 createdAt := 0 }),
       (cwIdZ, { id := cwIdZ, models := [], status := ConnStatus.error,
                 createdAt := 90 })],
    activeConnections := 3 }

/-- Witness for C7 at a concrete pool: the stale disconnected entry is
removed, while an equally old connected entry and a fresh errored entry
survive, and the count is 1. -/
theorem spec_c7_cleanupStale_witness :
    (c7Pool.connections.map (fun e => e.1)).Nodup ∧
    ((cleanupStaleConnections c7Pool 100 50).1.connections
        = c7Pool.connections.filter (fun e => ¬ staleCond 100 50 e) ∧
     (cleanupStaleConnections c7Pool 100 50).2
        = (c7Pool.connections.filter (fun e => staleCond 100 50 e)).length ∧
     ∀ e ∈ c7Pool.connections,
       (e.2.status = ConnStatus.connecting ∨ e.2.status = ConnStatus.connected) →
       e ∈ (cleanupStaleConnections c7Pool 100 50).1.connections) :=
  ⟨by decide, spec_c7_cleanupStale c7Pool 100 50 (by decide)⟩

/-- C9: `closeConnection(id)` is idempotent on the pool state: on an absent
id it leaves the pool unchanged, and closing the same id twice has the same
effect on the connection map and the active-connection counter as closing it
once. -/
theorem spec_c9_close_idempotent :
    (∀ (p : ConnectionPool) (id : String),
      lookupConn p id = none → closeConnection p id = p) ∧
    ∀ (p : ConnectionPool) (id : String),
      closeConnection (closeConnection p id) id = closeConnection p id := by
  have habsent : ∀ (p : ConnectionPool) (id : String),
      lookupConn p id = none → closeConnection p id = p := by
    intro p id h
    unfold closeConnection
    rw [h]
  refine ⟨habsent, ?_⟩
  intro p id
  cases hl : lookupConn p id with
  | none =>
    rw [habsent p id hl]
    exact habsent p id hl
  | some c =>
    exact habsent (closeConnection p id) id (closeConnection_lookup_self p id)

def c9Pool : ConnectionPool :=
  { connections :=
      [(cwIdX, { id := cwIdX, models := [], status := ConnStatus.connected,
                 createdAt := 0 })],
    activeConnections := 1 }

/-- Witness for C9 at a concrete pool: closing an absent id is a no-op and
closing a present id twice equals closing it once. -/
theorem spec_c9_close_idempotent_witness :
    lookupConn c9Pool cwIdY = none ∧
    closeConnection c9Pool cwIdY = c9Pool ∧
    closeConnection (closeConnection c9Pool cwIdX) cwIdX
      = closeConnection c9Pool cwIdX :=
  ⟨by decide, spec_c9_close_idempotent.1 c9Pool cwIdY (by decide),
    spec_c9_close_idempotent.2 c9Pool cwIdX⟩

/-- C10: over every sequence of pool operations (create, close, closeAll,
cleanupStale, status changes and their delayed removals) starting from the
freshly constructed pool, `activeConnections` equals the number of entries in
the connection map and is never negative. -/
theorem spec_c10_counter_invariant (ops : List PoolOp) :
    (applyPoolOps ops).activeConnections
        = (applyPoolOps ops).connections.length ∧
    0 ≤ (applyPoolOps ops).activeConnections := by
  have h := applyPoolOps_wf ops
  refine ⟨h.2, ?_⟩
  rw [h.2]
  exact Int.natCast_nonneg _

/-! ## Upstream Adapter: `callOpenRouter`

One decoded upstream interaction.  The upstream endpoint is modelled as a
function from the attempt number (the `retryCount` of that attempt) to a
fetch outcome; jitter is modelled as an arbitrary function of the attempt
number, constrained where a claim needs the `Math.random() * 1000` bound. -/

/-- One line of the upstream streaming body as consumed by the read loop of
`makeAIRequest`: the `[DONE]` marker, a token-bearing delta, a parsed JSON
object carrying an `error` field (whose rethrow is swallowed by the
parse-error catch), or an unparseable/contentless line. -/
inductive BodyLine where
  | done : BodyLine
  | token (t : String) : BodyLine
  | errLine (msg : String) : BodyLine
  | junk : BodyLine
deriving DecidableEq, Repr

/-- Outcome of one `fetch` inside `callOpenRouter`: a 2xx response (whose
`response.body` may be null), a non-ok HTTP status with its error text, an
`AbortError` from the 30s timeout, or a network `TypeError`. -/
inductive FetchOutcome where
  | ok (body : Option (List BodyLine)) : FetchOutcome
  | httpError (status : ℕ) (errorText : String) : FetchOutcome
  | abortErr : FetchOutcome
  | typeErr (msg : String) : FetchOutcome
deriving DecidableEq, Repr

/-- The `APIError` shape thrown by `callOpenRouter`. -/
structure APIError where
  status : Option ℕ
  message : String
  retryable : Bool
  isAbort : Bool
  isTypeError : Bool
deriving DecidableEq, Repr

/-- `const maxRetries = 3`. -/
def maxRetries : ℕ := 3

def fetchKw : String := "fetch"

def networkKw : String := "network"

def timeoutKw : String := "timeout"

def rateLimitKw : String := "rate limit"

/-- The `switch (response.status)` of `callOpenRouter` building the thrown
`APIError` for a non-ok HTTP response. -/
def mkHttpError (status : ℕ) (errorText modelName : String) : APIError :=
  if status = 400 then
    { status := some status,
      message := "Invalid request for " ++ modelName
        ++ ". The prompt may be too long or contain unsupported content.",
      retryable := false, isAbort := false, isTypeError := false }
  else if status = 401 then
    { status := some status,
      message := "Authentication failed. Please check your API key configuration.",
      retryable := false, isAbort := false, isTypeError := false }
  else if status = 403 then
    { status := some status,
      message := "Access denied for " ++ modelName
        ++ ". This model may not be available or you may not have permission.",
      retryable := false, isAbort := false, isTypeError := false }
  else if status = 404 then
    { status := some status,
      message := "Model " ++ modelName
        ++ " not found. This model may have been removed or renamed.",
      retryable := false, isAbort := false, isTypeError := false }
  else if status = 429 then
    { status := some status,
      message := "Rate limit exceeded for " ++ modelName
        ++ ". OpenRouter allows 20 requests/min for free models. Please try again in a few minutes.",
      retryable := true, isAbort := false, isTypeError := false }
  else if status = 500 ∨ status = 502 ∨ status = 503 ∨ status = 504 then
    { status := some status,
      message := "Server error for " ++ modelName
        ++ ". The service may be temporarily unavailable.",
      retryable := true, isAbort := false, isTypeError := false }
  else
    { status := some status,
      message := "Request failed for " ++ modelName ++ " (" ++ toString status
        ++ "): " ++ errorText,
      retryable := decide (500 ≤ status), isAbort := false, isTypeError := false }

/-- The `AbortError` rewrite at the top of the catch block of
`callOpenRouter`. -/
def abortToError (modelName : String) : APIError :=
  { status := none,
    message := "Request timeout for " ++ modelName
      ++ ". The model is taking too long to respond.",
    retryable := true, isAbort := true, isTypeError := false }

/-- The retry test of the catch block of `callOpenRouter`:
`retryCount < maxRetries && (error instanceof TypeError ||
message.includes('fetch') || message.includes('network') ||
message.includes('timeout') || apiError.retryable)`. -/
def shouldRetryCatch (e : APIError) (retryCount : ℕ) : Bool :=
  decide (retryCount < maxRetries) &&
    (e.isTypeError || strIncludes e.message fetchKw
      || strIncludes e.message networkKw || strIncludes e.message timeoutKw
      || e.retryable)

/-- The message enhancement applied when `callOpenRouter` rethrows:
`if (!apiError.message.includes(modelName)) message = modelName + ': ' + message`. -/
def enhanceMessage (e : APIError) (modelName : String) : APIError :=
  if strIncludes e.message modelName then e
  else { e with message := modelName ++ ": " ++ e.message }

/-- Result of one `callOpenRouter` call chain: the final outcome, the list of
backoff delays awaited between attempts (in milliseconds, in order), the
number of fetch attempts made, and the stagger wait performed before the
first fetch. -/
inductive CallOutcome where
  | ok (body : Option (List BodyLine)) : CallOutcome
  | failed (e : APIError) : CallOutcome
deriving DecidableEq, Repr

structure CallResult where
  outcome : CallOutcome
  delays : List ℚ
  attempts : ℕ
  initialWait : ℚ
deriving DecidableEq, Repr

/-- The recursion of `callOpenRouter`, fuelled: each retry increments
`retryCount`, and retries happen only while `retryCount < maxRetries`, so
fuel `maxRetries + 1` is always sufficient.  The 429 branch retries inline
with delay `2 ^ retryCount * 2000 + jitter`, every other retryable error is
rethrown, caught, and retried with delay `2 ^ retryCount * 1000 + jitter`. -/
def callOpenRouterAux (upstream : ℕ → FetchOutcome) (modelName : String)
    (j429 jNet : ℕ → ℚ) : ℕ → ℕ → ℚ → CallResult
  | 0, _, delayMs =>
    { outcome := CallOutcome.failed
        { status := none, message := "", retryable := false,
          isAbort := false, isTypeError := false },
      delays := [], attempts := 0,
      initialWait := if 0 < delayMs then delayMs else 0 }
  | fuel + 1, retryCount, delayMs =>
    let w : ℚ := if 0 < delayMs then delayMs else 0
    let finishCatch := fun (e : APIError) =>
      if shouldRetryCatch e retryCount then
        let d : ℚ := 2 ^ retryCount * 1000 + jNet retryCount
        let r := callOpenRouterAux upstream modelName j429 jNet fuel
          (retryCount + 1) 0
        { outcome := r.outcome, delays := d :: r.delays,
          attempts := r.attempts + 1, initialWait := w }
      else
        { outcome := CallOutcome.failed (enhanceMessage e modelName),
          delays := [], attempts := 1, initialWait := w }
    match upstream retryCount with
    | FetchOutcome.ok body =>
      { outcome := CallOutcome.ok body, delays := [], attempts := 1,
        initialWait := w }
    | FetchOutcome.httpError status errorText =>
      if status = 429 ∧ retryCount < maxRetries then
        let d : ℚ := 2 ^ retryCount * 2000 + j429 retryCount
        let r := callOpenRouterAux upstream modelName j429 jNet fuel
          (retryCount + 1) 0
        { outcome := r.outcome, delays := d :: r.delays,
          attempts := r.attempts + 1, initialWait := w }
      else finishCatch (mkHttpError status errorText modelName)
    | FetchOutcome.abortErr => finishCatch (abortToError modelName)
    | FetchOutcome.typeErr msg =>
      finishCatch
        { status := none, message := msg, retryable := false,
          isAbort := false, isTypeError := true }

/-- `callOpenRouter(messages, modelName, delayMs)` with `retryCount = 0`. -/
def callOpenRouter (upstream : ℕ → FetchOutcome) (modelName : String)
    (j429 jNet : ℕ → ℚ) (delayMs : ℚ) : CallResult :=
  callOpenRouterAux upstream modelName j429 jNet (maxRetries + 1) 0 delayMs

/-! ## Dispatcher / per-model server run: `makeAIRequest`

The SSE messages emitted by the chat-proxy POST handler for one model.  Event
names are the character lists sent on the wire (`modelName_chunk`,
`modelName_end`, ...); payloads keep the fields the claims inspect. -/

/-- Payload of one server-sent message. -/
inductive SPayload where
  | progressP (status message : String) : SPayload
  | chunkTok (token : String) : SPayload
  | endP (message : String) : SPayload
  | errP (message : String) (retryable : Bool) : SPayload
  | heartbeatP : SPayload
deriving DecidableEq, Repr

/-- One server-sent message: its SSE event name and its payload. -/
structure ServerEvent where
  name : List Char
  payload : SPayload
deriving DecidableEq, Repr

def chunkKind : String := "chunk"

def progressKind : String := "progress"

def errorKind : String := "error"

def endKind : String := "end"

/-- The event name `modelName + '_' + kind` used by `sendSSEMessage`. -/
def serverEventName (modelName kind : String) : List Char :=
  modelName.toList ++ '_' :: kind.toList

/-- The read loop of `makeAIRequest` over the decoded body lines: emits one
chunk message per token, ends on `[DONE]`, synthesizes an end when the body
is exhausted after content was received, and otherwise throws (the returned
`Option String` is the thrown message).  A line whose JSON carries an `error`
field throws inside the parse-error try, which swallows the throw. -/
def streamLoop (modelName : String) :
    List BodyLine → Bool → List ServerEvent × Option String
  | [], received =>
    if received then
      ([⟨serverEventName modelName endKind,
          SPayload.endP "Response completed (stream ended)"⟩], none)
    else ([], some "Stream ended without receiving any content")
  | BodyLine.done :: _, received =>
    ([⟨serverEventName modelName endKind,
        SPayload.endP
          (if received then "Response completed" else "Response completed (empty)")⟩],
     none)
  | BodyLine.token t :: rest, _ =>
    let r := streamLoop modelName rest true
    (⟨serverEventName modelName chunkKind, SPayload.chunkTok t⟩ :: r.1, r.2)
  | BodyLine.errLine _ :: rest, received => streamLoop modelName rest received
  | BodyLine.junk :: rest, received => streamLoop modelName rest received

/-- The catch block of `makeAIRequest`: maps the caught message to a
user-friendly one (forcing `retryable = true` for fetch/timeout/rate-limit
phrasing) and emits the single `modelName_error` message. -/
def catchErrorEvent (modelName message : String) (retryable : Bool) :
    ServerEvent :=
  if strIncludes message fetchKw then
    ⟨serverEventName modelName errorKind,
      SPayload.errP
        "Network connection failed. Please check your internet connection." true⟩
  else if strIncludes message timeoutKw then
    ⟨serverEventName modelName errorKind,
      SPayload.errP "Request timed out. The model may be overloaded." true⟩
  else if strIncludes message rateLimitKw then
    ⟨serverEventName modelName errorKind,
      SPayload.errP "Too many requests. Please wait a moment before trying again." true⟩
  else
    ⟨serverEventName modelName errorKind, SPayload.errP message retryable⟩

/-- Result of one `makeAIRequest(modelName, index)`: the SSE messages emitted
for this model, and the `callOpenRouter` result (carrying the stagger wait,
backoff delays and attempt count). -/
structure ModelRun where
  events : List ServerEvent
  call : CallResult
deriving DecidableEq, Repr

/-- `makeAIRequest(modelName, index)`: sends the connecting progress message,
staggers by `index * 2000` ms, calls `callOpenRouter`, then either streams
the body (progress + chunks + end) or emits the single error message built
by its catch block. -/
def makeAIRequest (modelName : String) (index : ℕ)
    (upstream : ℕ → FetchOutcome) (j429 jNet : ℕ → ℚ) : ModelRun :=
  let connectingEv : ServerEvent :=
    ⟨serverEventName modelName progressKind,
      SPayload.progressP "connecting" "Connecting to model..."⟩
  let delayMs : ℚ := (index : ℚ) * 2000
  let r := callOpenRouter upstream modelName j429 jNet delayMs
  { events :=
      match r.outcome with
      | CallOutcome.ok none =>
        [connectingEv,
          catchErrorEvent modelName "No response stream received from the model" false]
      | CallOutcome.ok (some body) =>
        let streamingEv : ServerEvent :=
          ⟨serverEventName modelName progressKind,
            SPayload.progressP "streaming" "Receiving response..."⟩
        let s := streamLoop modelName body false
        match s.2 with
        | none => connectingEv :: streamingEv :: s.1
        | some msg =>
          connectingEv :: streamingEv
            :: (s.1 ++ [catchErrorEvent modelName msg false])
      | CallOutcome.failed e =>
        [connectingEv, catchErrorEvent modelName e.message e.retryable],
    call := r }

/-- Is `ev` a terminal (`end` or `error`) message for `modelName`? -/
def isTerminalEventFor (modelName : String) (ev : ServerEvent) : Bool :=
  ev.name == serverEventName modelName endKind
    || ev.name == serverEventName modelName errorKind

/-! ### Server-side lemmas -/

lemma serverEventName_eq_iff (m k k' : String) :
    serverEventName m k = serverEventName m k' ↔ k = k' := by
  unfold serverEventName
  constructor
  · intro h
    have h2 := List.append_cancel_left h
    have h3 : k.toList = k'.toList := List.cons_injective h2
    cases k with
    | mk d =>
      cases k' with
      | mk d' =>
        simp only [String.toList] at h3
        exact congrArg String.mk h3
  · intro h
    rw [h]

lemma isTerminal_of_kind (m k : String) (pl : SPayload) :
    isTerminalEventFor m ⟨serverEventName m k, pl⟩
      = (k == endKind || k == errorKind) := by
  unfold isTerminalEventFor
  simp only []
  by_cases h1 : k = endKind
  · subst h1
    simp
  · by_cases h2 : k = errorKind
    · subst h2
      simp
    · have e1 : (serverEventName m k == serverEventName m endKind) = false := by
        simp only [beq_eq_false_iff_ne, ne_eq]
        rw [serverEventName_eq_iff]
        exact h1
      have e2 : (serverEventName m k == serverEventName m errorKind) = false := by
        simp only [beq_eq_false_iff_ne, ne_eq]
        rw [serverEventName_eq_iff]
        exact h2
      have e3 : (k == endKind) = false := by
        simp only [beq_eq_false_iff_ne, ne_eq]
        exact h1
      have e4 : (k == errorKind) = false := by
        simp only [beq_eq_false_iff_ne, ne_eq]
        exact h2
      rw [e1, e2, e3, e4]

lemma catchErrorEvent_name (m msg : String) (rb : Bool) :
    (catchErrorEvent m msg rb).name = serverEventName m errorKind := by
  unfold catchErrorEvent
  split_ifs <;> rfl

lemma catchErrorEvent_terminal (m msg : String) (rb : Bool) :
    isTerminalEventFor m (catchErrorEvent m msg rb) = true := by
  unfold isTerminalEventFor
  rw [catchErrorEvent_name]
  simp

lemma streamLoop_terminal_count (m : String) (body : List BodyLine)
    (received : Bool) :
    (streamLoop m body received).1.countP (fun ev => isTerminalEventFor m ev)
      = if (streamLoop m body received).2 = none then 1 else 0 := by
  induction body generalizing received with
  | nil =>
    cases received <;> simp [streamLoop, List.countP_cons, isTerminal_of_kind,
      endKind, errorKind]
  | cons line rest ih =>
    cases line with
    | done =>
      simp [streamLoop, List.countP_cons, isTerminal_of_kind, endKind, errorKind]
    | token t =>
      simp only [streamLoop, List.countP_cons, isTerminal_of_kind]
      rw [ih true]
      have : ((chunkKind == endKind) || (chunkKind == errorKind)) = false := by
        decide
      rw [this]
      simp
    | errLine msg => simpa [streamLoop] using ih received
    | junk => simpa [streamLoop] using ih received

/-- For every model, every index and every upstream behaviour,
`makeAIRequest` emits exactly one terminal (`end` or `error`) message for its
model. -/
lemma makeAIRequest_one_terminal (m : String) (i : ℕ)
    (upstream : ℕ → FetchOutcome) (j429 jNet : ℕ → ℚ) :
    (makeAIRequest m i upstream j429 jNet).events.countP
        (fun ev => isTerminalEventFor m ev) = 1 := by
  unfold makeAIRequest
  simp only []
  have hprog : isTerminalEventFor m
      ⟨serverEventName m progressKind,
        SPayload.progressP "connecting" "Connecting to model..."⟩ = false := by
    rw [isTerminal_of_kind]
    decide
  have hprog2 : isTerminalEventFor m
      ⟨serverEventName m progressKind,
        SPayload.progressP "streaming" "Receiving response..."⟩ = false := by
    rw [isTerminal_of_kind]
    decide
  cases hout : (callOpenRouter upstream m j429 jNet ((i : ℚ) * 2000)).outcome with
  | ok body =>
    cases body with
    | none =>
      simp [hout, List.countP_cons, hprog, catchErrorEvent_terminal]
    | some lines =>
      cases hs : (streamLoop m lines false).2 with
      | none =>
        simp only [hout, hs, List.countP_cons]
        rw [streamLoop_terminal_count]
        rw [hs]
        simp [hprog, hprog2]
      | some msg =>
        simp only [hout, hs, List.countP_cons, List.countP_append]
        rw [streamLoop_terminal_count]
        rw [hs]
        simp [hprog, hprog2, List.countP_cons, catchErrorEvent_terminal]
  | failed e =>
    simp [hout, List.countP_cons, hprog, catchErrorEvent_terminal]

lemma callOpenRouterAux_initialWait (u : ℕ → FetchOutcome) (m : String)
    (j1 j2 : ℕ → ℚ) (fuel k : ℕ) (d : ℚ) :
    (callOpenRouterAux u m j1 j2 (fuel + 1) k d).initialWait
      = if 0 < d then d else 0 := by
  simp only [callOpenRouterAux]
  cases h : u k with
  | ok body => rfl
  | httpError status errorText =>
    simp only []
    split_ifs <;> rfl
  | abortErr =>
    simp only []
    split_ifs <;> rfl
  | typeErr msg =>
    simp only []
    split_ifs <;> rfl

/-- C8: for every requested model set, the Dispatcher starts the model at
index `i` with a stagger delay of exactly `i * 2000` milliseconds before its
upstream request (`const delayMs = index * 2000` and the initial `delay` in
`callOpenRouter`). -/
theorem spec_c8_stagger_delay (m : String) (i : ℕ)
    (upstream : ℕ → FetchOutcome) (j429 jNet : ℕ → ℚ) :
    (makeAIRequest m i upstream j429 jNet).call.initialWait = (i : ℚ) * 2000 := by
  have hc : (makeAIRequest m i upstream j429 jNet).call
      = callOpenRouter upstream m j429 jNet ((i : ℚ) * 2000) := rfl
  rw [hc]
  unfold callOpenRouter
  rw [callOpenRouterAux_initialWait]
  by_cases hi : i = 0
  · subst hi
    norm_num
  · have hpos : (0 : ℚ) < (i : ℚ) * 2000 := by
      have : (0 : ℚ) < (i : ℚ) := by
        exact_mod_cast Nat.pos_of_ne_zero hi
      nlinarith
    rw [if_pos hpos]

/-! ### Failure classification (C3) -/

/-- The claim's fatal class: 400, 401, 403, 404 and any other 4xx. -/
def isFatalHttp (status : ℕ) : Bool :=
  decide (400 ≤ status ∧ status < 500 ∧ status ≠ 429)

/-- The claim's HTTP retryable class: 429 and 5xx. -/
def isRetryableHttp (status : ℕ) : Bool :=
  decide (status = 429 ∨ (500 ≤ status ∧ status < 600))

lemma mkHttpError_isTypeError (s : ℕ) (et m : String) :
    (mkHttpError s et m).isTypeError = false := by
  unfold mkHttpError
  split_ifs <;> rfl

lemma mkHttpError_fatal_retryable (s : ℕ) (et m : String)
    (hf : isFatalHttp s = true) : (mkHttpError s et m).retryable = false := by
  have h := of_decide_eq_true hf
  rcases h with ⟨h1, h2, h3⟩
  unfold mkHttpError
  split_ifs with c1 c2 c3 c4 c5
  · rfl
  · rfl
  · rfl
  · rfl
  · rcases c5 with h | h | h | h <;> omega
  · exact decide_eq_false (by omega)

lemma mkHttpError_retryable_retryable (s : ℕ) (et m : String)
    (hr : isRetryableHttp s = true) : (mkHttpError s et m).retryable = true := by
  have h := of_decide_eq_true hr
  unfold mkHttpError
  split_ifs with c1 c2 c3 c4 c5 c6
  · rcases h with h | h
    · omega
    · omega
  · rcases h with h | h
    · omega
    · omega
  · rcases h with h | h
    · omega
    · omega
  · rcases h with h | h
    · omega
    · omega
  · rfl
  · rfl
  · apply decide_eq_true
    rcases h with h | h
    · exact absurd h c5
    · rcases h with ⟨h5, h6⟩
      omega

/-- `!(fetch || network || timeout)` on a message: the retry test's substring
probes all fail. -/
def msgClean (s : String) : Bool :=
  !(strIncludes s fetchKw || strIncludes s networkKw || strIncludes s timeoutKw)

lemma msgClean_elim (s : String) (h : msgClean s = true) :
    strIncludes s fetchKw = false ∧ strIncludes s networkKw = false ∧
      strIncludes s timeoutKw = false := by
  unfold msgClean at h
  rw [Bool.not_eq_true'] at h
  rcases Bool.or_eq_false_iff.mp h with ⟨h12, h3⟩
  rcases Bool.or_eq_false_iff.mp h12 with ⟨h1, h2⟩
  exact ⟨h1, h2, h3⟩

lemma shouldRetryCatch_fatal (s : ℕ) (et m : String) (k : ℕ)
    (hf : isFatalHttp s = true)
    (hcl : msgClean (mkHttpError s et m).message = true) :
    shouldRetryCatch (mkHttpError s et m) k = false := by
  rcases msgClean_elim _ hcl with ⟨h1, h2, h3⟩
  unfold shouldRetryCatch
  rw [mkHttpError_isTypeError, mkHttpError_fatal_retryable s et m hf, h1, h2, h3]
  simp

/-- The cleanliness assumptions on a fatal error's message under which the
code's substring-based probes are all negative: no `fetch`, `network` or
`timeout` before or after the model-name prefix is added, and no
`rate limit` in the enhanced message. -/
def fatalMsgClean (e : APIError) (m : String) : Prop :=
  msgClean e.message = true ∧
    msgClean (enhanceMessage e m).message = true ∧
    strIncludes (enhanceMessage e m).message rateLimitKw = false

/-- A fatal HTTP status on the first attempt, with clean message: the call
fails immediately with the enhanced error, no delays, one attempt. -/
lemma callOpenRouter_fatal (s : ℕ) (et m : String)
    (upstream : ℕ → FetchOutcome) (j1 j2 : ℕ → ℚ) (d : ℚ)
    (hf : isFatalHttp s = true)
    (hup : upstream 0 = FetchOutcome.httpError s et)
    (hcl : msgClean (mkHttpError s et m).message = true) :
    callOpenRouter upstream m j1 j2 d
      = { outcome := CallOutcome.failed (enhanceMessage (mkHttpError s et m) m),
          delays := [], attempts := 1,
          initialWait := if 0 < d then d else 0 } := by
  have h429 : ¬ s = 429 := (of_decide_eq_true hf).2.2
  unfold callOpenRouter
  simp only [callOpenRouterAux]
  rw [hup]
  simp only []
  have hcond : ¬ (s = 429 ∧ 0 < maxRetries) := fun hc => h429 hc.1
  rw [if_neg hcond]
  have hsr : shouldRetryCatch (mkHttpError s et m) 0 = false :=
    shouldRetryCatch_fatal s et m 0 hf hcl
  rw [if_neg (by rw [hsr]; simp)]

lemma shouldRetryCatch_budget (e : APIError) (k : ℕ) (h : ¬ k < maxRetries) :
    shouldRetryCatch e k = false := by
  unfold shouldRetryCatch
  rw [decide_eq_false h]
  simp

/-- An upstream that is rate-limited on every attempt. -/
lemma call429_forever (et m : String) (j1 j2 : ℕ → ℚ) (d : ℚ) :
    callOpenRouter (fun _ => FetchOutcome.httpError 429 et) m j1 j2 d
      = { outcome := CallOutcome.failed (enhanceMessage (mkHttpError 429 et m) m),
          delays := [2 ^ 0 * 2000 + j1 0, 2 ^ 1 * 2000 + j1 1, 2 ^ 2 * 2000 + j1 2],
          attempts := 4,
          initialWait := if 0 < d then d else 0 } := by
  have hbudget : shouldRetryCatch (mkHttpError 429 et m) 3 = false :=
    shouldRetryCatch_budget _ 3 (by norm_num [maxRetries])
  unfold callOpenRouter
  simp only [callOpenRouterAux]
  norm_num [maxRetries, hbudget]

/-- An upstream that is rate-limited on attempts 0, 1 and 2 and succeeds on
attempt 3. -/
def rate3Upstream (et : String) (body : Option (List BodyLine)) :
    ℕ → FetchOutcome :=
  fun k => if k < 3 then FetchOutcome.httpError 429 et else FetchOutcome.ok body

lemma call429x3 (et m : String) (body : Option (List BodyLine))
    (j1 j2 : ℕ → ℚ) (d : ℚ) :
    callOpenRouter (rate3Upstream et body) m j1 j2 d
      = { outcome := CallOutcome.ok body,
          delays := [2 ^ 0 * 2000 + j1 0, 2 ^ 1 * 2000 + j1 1, 2 ^ 2 * 2000 + j1 2],
          attempts := 4,
          initialWait := if 0 < d then d else 0 } := by
  unfold callOpenRouter rate3Upstream
  simp only [callOpenRouterAux]
  norm_num [maxRetries]

lemma callOpenRouterAux_attempts_le (u : ℕ → FetchOutcome) (m : String)
    (j1 j2 : ℕ → ℚ) :
    ∀ (fuel k : ℕ) (d : ℚ),
      (callOpenRouterAux u m j1 j2 fuel k d).attempts ≤ fuel := by
  intro fuel
  induction fuel with
  | zero =>
    intro k d
    simp [callOpenRouterAux]
  | succ fuel ih =>
    intro k d
    have hrec := ih (k + 1) (0 : ℚ)
    cases hu : u k with
    | ok body =>
      simp only [callOpenRouterAux, hu]
      omega
    | httpError st et =>
      simp only [callOpenRouterAux, hu]
      split_ifs
      all_goals first
        | omega
        | (simp only []
           omega)
    | abortErr =>
      simp only [callOpenRouterAux, hu]
      split_ifs
      all_goals first
        | omega
        | (simp only []
           omega)
    | typeErr msg =>
      simp only [callOpenRouterAux, hu]
      split_ifs
      all_goals first
        | omega
        | (simp only []
           omega)

lemma enhanceMessage_retryable (e : APIError) (m : String) :
    (enhanceMessage e m).retryable = e.retryable := by
  unfold enhanceMessage
  split_ifs <;> rfl

lemma progress_not_terminal (m : String) (pl : SPayload) :
    isTerminalEventFor m ⟨serverEventName m progressKind, pl⟩ = false := by
  rw [isTerminal_of_kind]
  decide

lemma catchErrorEvent_clean (m msg : String) (rb : Bool)
    (h1 : msgClean msg = true) (h2 : strIncludes msg rateLimitKw = false) :
    catchErrorEvent m msg rb
      = ⟨serverEventName m errorKind, SPayload.errP msg rb⟩ := by
  rcases msgClean_elim msg h1 with ⟨hf, hn, ht⟩
  unfold catchErrorEvent
  rw [if_neg (by rw [hf]; simp), if_neg (by rw [ht]; simp),
    if_neg (by rw [h2]; simp)]

lemma catchErrorEvent_retryable_true (m x : String) :
    ∃ msg, catchErrorEvent m x true
      = ⟨serverEventName m errorKind, SPayload.errP msg true⟩ := by
  unfold catchErrorEvent
  split_ifs <;> exact ⟨_, rfl⟩

lemma error_event_terminal (m : String) (pl : SPayload) :
    isTerminalEventFor m ⟨serverEventName m errorKind, pl⟩ = true := by
  rw [isTerminal_of_kind]
  decide

lemma filter_two_terminal (m : String) (a b : ServerEvent)
    (ha : isTerminalEventFor m a = false) (hb : isTerminalEventFor m b = true) :
    [a, b].filter (fun ev => isTerminalEventFor m ev) = [b] := by
  simp [List.filter_cons, ha, hb]

lemma enhanceMessage_isTypeError (e : APIError) (m : String) :
    (enhanceMessage e m).isTypeError = e.isTypeError := by
  unfold enhanceMessage
  split_ifs <;> rfl

lemma catchErrorEvent_shape (m x : String) (rb : Bool) :
    ∃ pl, catchErrorEvent m x rb = ⟨serverEventName m errorKind, pl⟩ := by
  unfold catchErrorEvent
  split_ifs <;> exact ⟨_, rfl⟩

/-- If a call chain surfaces a failure whose thrown error is
retryable-classified (`retryable` flag set — HTTP 429 and 5xx, aborts — or a
network `TypeError`), the catch block's retry test can only have declined on
the budget, so the whole fuel was consumed: every attempt was made. -/
lemma callOpenRouterAux_retryable_exhausts (u : ℕ → FetchOutcome) (m : String)
    (j1 j2 : ℕ → ℚ) :
    ∀ (fuel k : ℕ) (d : ℚ) (e : APIError),
      fuel + k = maxRetries + 1 →
      (callOpenRouterAux u m j1 j2 fuel k d).outcome = CallOutcome.failed e →
      e.retryable = true ∨ e.isTypeError = true →
      (callOpenRouterAux u m j1 j2 fuel k d).attempts = fuel := by
  intro fuel
  induction fuel with
  | zero =>
    intro k d e hk hout hclass
    simp only [callOpenRouterAux, CallOutcome.failed.injEq] at hout
    rcases hclass with hc | hc <;>
      (rw [← hout] at hc
       exact absurd hc (by decide))
  | succ fuel ih =>
    intro k d e hk hout hclass
    cases hu : u k with
    | ok body =>
      simp only [callOpenRouterAux, hu] at hout
      exact CallOutcome.noConfusion hout
    | httpError st et =>
      simp only [callOpenRouterAux, hu] at hout ⊢
      by_cases h429 : st = 429 ∧ k < maxRetries
      · rw [if_pos h429] at hout ⊢
        simp only [] at hout ⊢
        have hrec := ih (k + 1) 0 e (by omega) hout hclass
        omega
      · rw [if_neg h429] at hout ⊢
        by_cases hsr : shouldRetryCatch (mkHttpError st et m) k = true
        · rw [if_pos hsr] at hout ⊢
          simp only [] at hout ⊢
          have hrec := ih (k + 1) 0 e (by omega) hout hclass
          omega
        · rw [if_neg hsr] at hout ⊢
          simp only [CallOutcome.failed.injEq] at hout
          have hclass0 : (mkHttpError st et m).retryable = true ∨
              (mkHttpError st et m).isTypeError = true := by
            rcases hclass with hc | hc
            · left
              rw [← hout, enhanceMessage_retryable] at hc
              exact hc
            · right
              rw [← hout, enhanceMessage_isTypeError] at hc
              exact hc
          have hk3 : ¬ k < maxRetries := by
            intro hlt
            apply hsr
            unfold shouldRetryCatch
            rw [decide_eq_true hlt]
            rcases hclass0 with hc | hc
            · rw [hc]
              simp
            · rw [hc]
              simp
          show (1 : ℕ) = fuel + 1
          omega
    | abortErr =>
      simp only [callOpenRouterAux, hu] at hout ⊢
      by_cases hsr : shouldRetryCatch (abortToError m) k = true
      · rw [if_pos hsr] at hout ⊢
        simp only [] at hout ⊢
        have hrec := ih (k + 1) 0 e (by omega) hout hclass
        omega
      · rw [if_neg hsr] at hout ⊢
        have hk3 : ¬ k < maxRetries := by
          intro hlt
          apply hsr
          unfold shouldRetryCatch
          rw [decide_eq_true hlt]
          simp [abortToError]
        show (1 : ℕ) = fuel + 1
        omega
    | typeErr msg =>
      simp only [callOpenRouterAux, hu] at hout ⊢
      by_cases hsr : shouldRetryCatch
          { status := none, message := msg, retryable := false,
            isAbort := false, isTypeError := true } k = true
      · rw [if_pos hsr] at hout ⊢
        simp only [] at hout ⊢
        have hrec := ih (k + 1) 0 e (by omega) hout hclass
        omega
      · rw [if_neg hsr] at hout ⊢
        have hk3 : ¬ k < maxRetries := by
          intro hlt
          apply hsr
          unfold shouldRetryCatch
          rw [decide_eq_true hlt]
          simp
        show (1 : ℕ) = fuel + 1
        omega

/-- C3 (amended): the Upstream Adapter classifies HTTP 429 and 5xx (and
timeouts) as retryable and 400/401/403/404 and every other 4xx as fatal; a
fatal failure whose error message does not itself contain the substrings
`fetch`, `network`, `timeout` or `rate limit` is never retried (one fetch
attempt, no backoff delays) and yields exactly one error event for its target
with `retryable = false`; a retryable failure is surfaced as an error event
only after the retry budget (3 retries, 4 attempts) is exhausted: for every
upstream behaviour, if the surfaced failure is retryable-classified (the
thrown error carries `retryable = true` — HTTP 429, 5xx, aborted/timed-out
requests — or is a network `TypeError`), then all `maxRetries + 1` attempts
were made and the run's single terminal event is the error event; in
particular a permanently rate-limited target exhausts the budget and surfaces
with `retryable = true`. -/
theorem spec_c3_retry_classification :
    (∀ (s : ℕ) (et m : String), isFatalHttp s = true →
      (mkHttpError s et m).retryable = false) ∧
    (∀ (s : ℕ) (et m : String), isRetryableHttp s = true →
      (mkHttpError s et m).retryable = true) ∧
    (∀ m : String, (abortToError m).retryable = true) ∧
    (∀ (s : ℕ) (et m : String) (upstream : ℕ → FetchOutcome)
        (i : ℕ) (j1 j2 : ℕ → ℚ),
      isFatalHttp s = true →
      upstream 0 = FetchOutcome.httpError s et →
      fatalMsgClean (mkHttpError s et m) m →
      (makeAIRequest m i upstream j1 j2).call.attempts = 1 ∧
      (makeAIRequest m i upstream j1 j2).call.delays = [] ∧
      (makeAIRequest m i upstream j1 j2).events.filter
          (fun ev => isTerminalEventFor m ev)
        = [⟨serverEventName m errorKind,
            SPayload.errP (enhanceMessage (mkHttpError s et m) m).message false⟩]) ∧
    (∀ (et m : String) (i : ℕ) (j1 j2 : ℕ → ℚ),
      (makeAIRequest m i (fun _ => FetchOutcome.httpError 429 et) j1 j2).call.attempts
        = maxRetries + 1 ∧
      ∃ msg,
        (makeAIRequest m i (fun _ => FetchOutcome.httpError 429 et) j1 j2).events.filter
            (fun ev => isTerminalEventFor m ev)
          = [⟨serverEventName m errorKind, SPayload.errP msg true⟩]) ∧
    (∀ (u : ℕ → FetchOutcome) (m : String) (i : ℕ) (j1 j2 : ℕ → ℚ)
        (e : APIError),
      (makeAIRequest m i u j1 j2).call.outcome = CallOutcome.failed e →
      e.retryable = true ∨ e.isTypeError = true →
      (makeAIRequest m i u j1 j2).call.attempts = maxRetries + 1 ∧
      ∃ pl, (makeAIRequest m i u j1 j2).events.filter
          (fun ev => isTerminalEventFor m ev)
        = [⟨serverEventName m errorKind, pl⟩]) := by
  refine ⟨mkHttpError_fatal_retryable, mkHttpError_retryable_retryable,
    fun m => rfl, ?_, ?_, ?_⟩
  · intro s et m upstream i j1 j2 hf hup hclean
    rcases hclean with ⟨hcl1, hcl2, hcl3⟩
    have hcall := callOpenRouter_fatal s et m upstream j1 j2 ((i : ℚ) * 2000)
      hf hup hcl1
    have hatt : (makeAIRequest m i upstream j1 j2).call.attempts = 1 := by
      have hc : (makeAIRequest m i upstream j1 j2).call
          = callOpenRouter upstream m j1 j2 ((i : ℚ) * 2000) := rfl
      rw [hc, hcall]
    have hdel : (makeAIRequest m i upstream j1 j2).call.delays = [] := by
      have hc : (makeAIRequest m i upstream j1 j2).call
          = callOpenRouter upstream m j1 j2 ((i : ℚ) * 2000) := rfl
      rw [hc, hcall]
    refine ⟨hatt, hdel, ?_⟩
    have hret : (enhanceMessage (mkHttpError s et m) m).retryable = false := by
      rw [enhanceMessage_retryable]
      exact mkHttpError_fatal_retryable s et m hf
    unfold makeAIRequest
    simp only [hcall]
    rw [catchErrorEvent_clean m _ _ hcl2 hcl3, hret]
    exact filter_two_terminal m _ _ (progress_not_terminal m _)
      (error_event_terminal m _)
  · intro et m i j1 j2
    have hcall := call429_forever et m j1 j2 ((i : ℚ) * 2000)
    have hc : (makeAIRequest m i (fun _ => FetchOutcome.httpError 429 et) j1 j2).call
        = callOpenRouter (fun _ => FetchOutcome.httpError 429 et) m j1 j2
            ((i : ℚ) * 2000) := rfl
    constructor
    · rw [hc, hcall]
      rfl
    · have hret : (enhanceMessage (mkHttpError 429 et m) m).retryable = true := by
        rw [enhanceMessage_retryable]
        exact mkHttpError_retryable_retryable 429 et m (by decide)
      rcases catchErrorEvent_retryable_true m
          (enhanceMessage (mkHttpError 429 et m) m).message with ⟨msg, hmsg⟩
      refine ⟨msg, ?_⟩
      unfold makeAIRequest
      simp only [hcall]
      rw [hret, hmsg]
      exact filter_two_terminal m _ _ (progress_not_terminal m _)
        (error_event_terminal m _)
  · intro u m i j1 j2 e hout hclass
    have hout2 : (callOpenRouterAux u m j1 j2 (maxRetries + 1) 0
        ((i : ℚ) * 2000)).outcome = CallOutcome.failed e := hout
    have hatt := callOpenRouterAux_retryable_exhausts u m j1 j2
      (maxRetries + 1) 0 ((i : ℚ) * 2000) e (by omega) hout2 hclass
    refine ⟨hatt, ?_⟩
    have hout3 : (callOpenRouter u m j1 j2 ((i : ℚ) * 2000)).outcome
        = CallOutcome.failed e := hout
    rcases catchErrorEvent_shape m e.message e.retryable with ⟨pl, hpl⟩
    refine ⟨pl, ?_⟩
    unfold makeAIRequest
    simp only [hout3]
    rw [hpl]
    exact filter_two_terminal m _ _ (progress_not_terminal m _)
      (error_event_terminal m _)

def cexModelName : String := "m"

def cexUpstream418 : ℕ → FetchOutcome :=
  fun _ => FetchOutcome.httpError 418 timeoutKw

def zeroJitter : ℕ → ℚ := fun _ => 0

/-- C3 counterexample: an HTTP 418 response whose error body text is
`timeout` is classified fatal by the code (`retryable = false`, a 4xx other
than 429), yet `callOpenRouter` retries it three times (four fetch attempts,
nonempty delay list), because the catch-block retry test probes the error
message for the substring `timeout` — refuting the claim that a fatal
failure is never retried. -/
theorem spec_c3_counterexample :
    isFatalHttp 418 = true ∧
    (mkHttpError 418 timeoutKw cexModelName).retryable = false ∧
    (callOpenRouter cexUpstream418 cexModelName zeroJitter zeroJitter 0).attempts
      = 4 ∧
    (callOpenRouter cexUpstream418 cexModelName zeroJitter zeroJitter 0).delays
      ≠ [] := by
  refine ⟨by decide, by decide, by decide, ?_⟩
  intro h
  have : (callOpenRouter cexUpstream418 cexModelName zeroJitter zeroJitter
      0).delays.length = 0 := by
    rw [h]
    rfl
  have hlen : (callOpenRouter cexUpstream418 cexModelName zeroJitter zeroJitter
      0).delays.length = 3 := by decide
  omega

/-- Witness for the amended C3 at concrete inputs: a 404 with empty body text
and model name `m` (message clean of all probed substrings) is not retried
and produces the single retryable-false error event; a permanently 429
upstream exhausts the budget; a permanently 503 upstream (whose surfaced
error is retryable-classified) makes all four attempts. -/
theorem spec_c3_retry_classification_witness :
    (isFatalHttp 404 = true ∧
      fatalMsgClean (mkHttpError 404 cexModelName cexModelName) cexModelName ∧
      (makeAIRequest cexModelName 0
          (fun _ => FetchOutcome.httpError 404 cexModelName)
          zeroJitter zeroJitter).call.attempts = 1 ∧
      (makeAIRequest cexModelName 0
          (fun _ => FetchOutcome.httpError 404 cexModelName)
          zeroJitter zeroJitter).events.filter
          (fun ev => isTerminalEventFor cexModelName ev)
        = [⟨serverEventName cexModelName errorKind,
            SPayload.errP
              (enhanceMessage (mkHttpError 404 cexModelName cexModelName)
                cexModelName).message false⟩]) ∧
    (makeAIRequest cexModelName 0
        (fun _ => FetchOutcome.httpError 429 cexModelName)
        zeroJitter zeroJitter).call.attempts = maxRetries + 1 ∧
    ((makeAIRequest cexModelName 0
        (fun _ => FetchOutcome.httpError 503 cexModelName)
        zeroJitter zeroJitter).call.outcome
      = CallOutcome.failed
          (enhanceMessage (mkHttpError 503 cexModelName cexModelName)
            cexModelName) ∧
      (makeAIRequest cexModelName 0
        (fun _ => FetchOutcome.httpError 503 cexModelName)
        zeroJitter zeroJitter).call.attempts = maxRetries + 1) := by
  have hm := spec_c3_retry_classification.2.2.2.1 404 cexModelName cexModelName
    (fun _ => FetchOutcome.httpError 404 cexModelName) 0 zeroJitter zeroJitter
    (by decide) rfl ⟨by decide, by decide, by decide⟩
  have h429 := (spec_c3_retry_classification.2.2.2.2.1 cexModelName cexModelName
    0 zeroJitter zeroJitter).1
  have h503out : (makeAIRequest cexModelName 0
      (fun _ => FetchOutcome.httpError 503 cexModelName)
      zeroJitter zeroJitter).call.outcome
    = CallOutcome.failed
        (enhanceMessage (mkHttpError 503 cexModelName cexModelName)
          cexModelName) := by decide
  have h503 := (spec_c3_retry_classification.2.2.2.2.2
    (fun _ => FetchOutcome.httpError 503 cexModelName) cexModelName 0
    zeroJitter zeroJitter
    (enhanceMessage (mkHttpError 503 cexModelName cexModelName) cexModelName)
    h503out (Or.inl (by decide))).1
  exact ⟨⟨by decide, ⟨by decide, by decide, by decide⟩, hm.1, hm.2.2⟩, h429,
    h503out, h503⟩

/-- C4: on rate-limit responses the retry delay computed at attempt `k` is
`2 ^ k * 2000 + jitter` with jitter in `[0, 1000)`; at most 3 retries happen
(4 fetch attempts) for any upstream; the successive backoff delays are
strictly increasing; and a target that is rate-limited three times and then
succeeds emits its chunk events only on the attempt after the 3rd retry. -/
theorem spec_c4_backoff :
    (∀ (et m : String) (body : Option (List BodyLine)) (j429 jNet : ℕ → ℚ),
      (∀ n, 0 ≤ j429 n ∧ j429 n < 1000) →
      (callOpenRouter (rate3Upstream et body) m j429 jNet 0).delays
          = [2 ^ 0 * 2000 + j429 0, 2 ^ 1 * 2000 + j429 1,
             2 ^ 2 * 2000 + j429 2] ∧
      (callOpenRouter (rate3Upstream et body) m j429 jNet 0).attempts
          = maxRetries + 1 ∧
      List.Chain' (· < ·)
        ((callOpenRouter (rate3Upstream et body) m j429 jNet 0).delays) ∧
      (callOpenRouter (rate3Upstream et body) m j429 jNet 0).outcome
          = CallOutcome.ok body) ∧
    (∀ (u : ℕ → FetchOutcome) (m : String) (j1 j2 : ℕ → ℚ) (d : ℚ),
      (callOpenRouter u m j1 j2 d).attempts ≤ maxRetries + 1) ∧
    (∀ (et m t : String) (j429 jNet : ℕ → ℚ),
      (makeAIRequest m 0
          (rate3Upstream et (some [BodyLine.token t, BodyLine.done]))
          j429 jNet).events
        = [⟨serverEventName m progressKind,
             SPayload.progressP "connecting" "Connecting to model..."⟩,
           ⟨serverEventName m progressKind,
             SPayload.progressP "streaming" "Receiving response..."⟩,
           ⟨serverEventName m chunkKind, SPayload.chunkTok t⟩,
           ⟨serverEventName m endKind, SPayload.endP "Response completed"⟩] ∧
      (makeAIRequest m 0
          (rate3Upstream et (some [BodyLine.token t, BodyLine.done]))
          j429 jNet).call.delays.length = 3) := by
  refine ⟨?_, ?_, ?_⟩
  · intro et m body j429 jNet hj
    have hcall := call429x3 et m body j429 jNet 0
    rw [hcall]
    have h0 := hj 0
    have h1 := hj 1
    have h2 := hj 2
    refine ⟨rfl, rfl, ?_, rfl⟩
    simp only [List.chain'_cons, List.chain'_singleton, and_true]
    constructor
    · nlinarith [h0.1, h0.2, h1.1, h1.2]
    · nlinarith [h1.1, h1.2, h2.1, h2.2]
  · intro u m j1 j2 d
    exact callOpenRouterAux_attempts_le u m j1 j2 (maxRetries + 1) 0 d
  · intro et m t j429 jNet
    have hcall := call429x3 et m (some [BodyLine.token t, BodyLine.done])
      j429 jNet (0 : ℚ)
    constructor
    · unfold makeAIRequest
      simp only [Nat.cast_zero, zero_mul]
      rw [hcall]
      simp [streamLoop]
    · have hc : (makeAIRequest m 0
          (rate3Upstream et (some [BodyLine.token t, BodyLine.done]))
          j429 jNet).call
        = callOpenRouter (rate3Upstream et (some [BodyLine.token t, BodyLine.done]))
            m j429 jNet (((0 : ℕ) : ℚ) * 2000) := rfl
      rw [hc]
      rw [show (((0 : ℕ) : ℚ) * 2000) = (0 : ℚ) by norm_num]
      rw [hcall]
      rfl

/-- Witness for C4 at zero jitter: the three delays are 2000, 4000, 8000 ms,
strictly increasing, with four attempts. -/
theorem spec_c4_backoff_witness :
    (∀ n, (0 : ℚ) ≤ zeroJitter n ∧ zeroJitter n < 1000) ∧
    ((callOpenRouter (rate3Upstream cexModelName (some []))
        cexModelName zeroJitter zeroJitter 0).attempts = maxRetries + 1 ∧
      List.Chain' (· < ·)
        ((callOpenRouter (rate3Upstream cexModelName (some []))
          cexModelName zeroJitter zeroJitter 0).delays)) := by
  have hj : ∀ n, (0 : ℚ) ≤ zeroJitter n ∧ zeroJitter n < 1000 := by
    intro n
    unfold zeroJitter
    norm_num
  have h := spec_c4_backoff.1 cexModelName cexModelName (some [])
    zeroJitter zeroJitter hj
  exact ⟨hj, h.2.1, h.2.2.1⟩

/-! ## Event Multiplexer heartbeat / staleness (C5)

The `heartbeatInterval` callback of the chat-proxy POST handler fires every
10 seconds.  It closes the stream when `Date.now() - lastActivity > 120000`,
where `lastActivity` is updated only when upstream model data is received —
not when messages (heartbeats included) are emitted.  The model additionally
tracks `lastEmit`, the time of the last outbound emission, so that the
claim's version of the staleness trigger can be stated and refuted. -/

def heartbeatIntervalMs : ℕ := 10000

def staleThresholdMs : ℕ := 120000

structure MuxState where
  connectionActive : Bool
  lastActivity : ℕ
  lastEmit : ℕ
deriving DecidableEq, Repr

/-- One firing of the heartbeat timer at time `now`: returns the new state,
whether a heartbeat message was emitted, and whether the stream was
force-terminated by the staleness check. -/
def heartbeatTick (st : MuxState) (now : ℕ) : MuxState × Bool × Bool :=
  if st.connectionActive = false then (st, false, false)
  else if staleThresholdMs < now - st.lastActivity then
    ({ st with connectionActive := false }, false, true)
  else ({ st with lastEmit := now }, true, false)

/-- Run the heartbeat timer over a list of tick times: final state, emission
times, termination times. -/
def muxTicks (st : MuxState) : List ℕ → MuxState × List ℕ × List ℕ
  | [] => (st, [], [])
  | t :: ts =>
    let r := heartbeatTick st t
    let rest := muxTicks r.1 ts
    (rest.1, (if r.2.1 then [t] else []) ++ rest.2.1,
     (if r.2.2 then [t] else []) ++ rest.2.2)

/-- Tick times of a run in which the connection opens at time 0, the models
produce no data, and heartbeats fire every 10 s for 130 s. -/
def cexTickTimes : List ℕ :=
  [10000, 20000, 30000, 40000, 50000, 60000, 70000, 80000, 90000, 100000,
   110000, 120000, 130000]

/-- C5 counterexample: with no upstream data, the code emits heartbeats at
every tick through t = 120 s and then force-terminates at t = 130 s — only
10 s after its last emitted event.  So the stream is force-terminated at a
moment when events *have* been emitted within the 2-minute threshold,
refuting the claim that force-termination is triggered by the outbound
stream having been silent (no event of any kind emitted) for 2 minutes. -/
theorem spec_c5_counterexample :
    (muxTicks ⟨true, 0, 0⟩ cexTickTimes).2.2 = [130000] ∧
    120000 ∈ (muxTicks ⟨true, 0, 0⟩ cexTickTimes).2.1 ∧
    130000 - 120000 ≤ staleThresholdMs ∧
    heartbeatIntervalMs = 10000 := by
  refine ⟨by decide, by decide, by decide, rfl⟩

/-- C5 (amended): the staleness clock is the time since the last *received*
upstream activity (`lastActivity`), not the last emitted event: a heartbeat
tick at time `now` on a live connection force-terminates the stream exactly
when `now - lastActivity > 120000` (2 minutes), and otherwise emits a
heartbeat message — every 10 seconds, independent of model activity. -/
theorem spec_c5_staleness :
    (∀ (st : MuxState) (now : ℕ), st.connectionActive = true →
      (((heartbeatTick st now).2.2 = true ↔
          staleThresholdMs < now - st.lastActivity) ∧
        ((heartbeatTick st now).2.1 = true ↔
          now - st.lastActivity ≤ staleThresholdMs) ∧
        ((heartbeatTick st now).2.2 = true →
          (heartbeatTick st now).1.connectionActive = false))) ∧
    heartbeatIntervalMs = 10000 ∧ staleThresholdMs = 120000 := by
  refine ⟨?_, rfl, rfl⟩
  intro st now hact
  unfold heartbeatTick
  rw [hact]
  by_cases hstale : staleThresholdMs < now - st.lastActivity
  · rw [if_neg (by simp), if_pos hstale]
    refine ⟨by simp [hstale], ?_, fun _ => rfl⟩
    constructor
    · intro h
      exact Bool.noConfusion h
    · intro h
      omega
  · rw [if_neg (by simp), if_neg hstale]
    refine ⟨by simp [hstale], by simp; omega, fun h => Bool.noConfusion h⟩

/-- Witness for the amended C5: a live connection with stale upstream
activity is terminated; a live one with fresh activity emits a heartbeat. -/
theorem spec_c5_staleness_witness :
    ((heartbeatTick ⟨true, 0, 0⟩ 130000).2.2 = true ↔
        staleThresholdMs < 130000 - 0) ∧
    ((heartbeatTick ⟨true, 125000, 0⟩ 130000).2.1 = true ↔
        130000 - 125000 ≤ staleThresholdMs) :=
  ⟨(spec_c5_staleness.1 ⟨true, 0, 0⟩ 130000 rfl).1,
    (spec_c5_staleness.1 ⟨true, 125000, 0⟩ 130000 rfl).2.1⟩

/-! ## Consumer-side Connection Manager: `SSEConnectionManager`

Event names arrive on the wire as `modelId_kind` strings; `handleSSEEvent`
splits on `'_'`, takes the last segment as the event kind and rejoins the
rest as the model id.  Names are modelled as character lists. -/

/-- JavaScript `event.split('_')`. -/
def splitU : List Char → List (List Char)
  | [] => [[]]
  | c :: cs =>
    if c = '_' then [] :: splitU cs
    else
      match splitU cs with
      | [] => [[c]]
      | p :: ps => (c :: p) :: ps

/-- JavaScript `parts.join('_')`. -/
def joinU : List (List Char) → List Char
  | [] => []
  | [p] => p
  | p :: q :: ps => p ++ '_' :: joinU (q :: ps)

lemma splitU_nil : splitU [] = [[]] := rfl

lemma splitU_cons (c : Char) (cs : List Char) :
    splitU (c :: cs)
      = if c = '_' then [] :: splitU cs
        else
          match splitU cs with
          | [] => [[c]]
          | p :: ps => (c :: p) :: ps := rfl

lemma splitU_ne_nil (s : List Char) : splitU s ≠ [] := by
  cases s with
  | nil => simp [splitU_nil]
  | cons c cs =>
    rw [splitU_cons]
    by_cases hc : c = '_'
    · simp [hc]
    · rw [if_neg hc]
      cases h : splitU cs <;> simp

lemma splitU_sep (xs ys : List Char) :
    splitU (xs ++ '_' :: ys) = splitU xs ++ splitU ys := by
  induction xs with
  | nil =>
    rw [List.nil_append, splitU_cons, if_pos rfl, splitU_nil]
    rfl
  | cons c cs ih =>
    rw [List.cons_append, splitU_cons, splitU_cons]
    by_cases hc : c = '_'
    · rw [if_pos hc, if_pos hc, ih]
      rfl
    · rw [if_neg hc, if_neg hc, ih]
      cases h : splitU cs with
      | nil => exact absurd h (splitU_ne_nil cs)
      | cons p ps => simp

lemma splitU_no_sep (xs : List Char) (h : '_' ∉ xs) : splitU xs = [xs] := by
  induction xs with
  | nil => rfl
  | cons c cs ih =>
    simp only [List.mem_cons, not_or] at h
    rcases h with ⟨h1, h2⟩
    rw [splitU_cons, if_neg (fun hc => h1 hc.symm), ih h2]

lemma joinU_splitU (s : List Char) : joinU (splitU s) = s := by
  induction s with
  | nil => rfl
  | cons c cs ih =>
    rw [splitU_cons]
    by_cases hc : c = '_'
    · rw [if_pos hc]
      cases h : splitU cs with
      | nil => exact absurd h (splitU_ne_nil cs)
      | cons p ps =>
        rw [h] at ih
        rw [show joinU ([] :: p :: ps) = [] ++ '_' :: joinU (p :: ps) from rfl,
          ih, hc]
        rfl
    · rw [if_neg hc]
      cases h : splitU cs with
      | nil => exact absurd h (splitU_ne_nil cs)
      | cons p ps =>
        rw [h] at ih
        cases ps with
        | nil =>
          have hp : p = cs := ih
          rw [show (match (p :: [] : List (List Char)) with
              | [] => [[c]]
              | p :: ps => (c :: p) :: ps) = [c :: p] from rfl]
          rw [show joinU [c :: p] = c :: p from rfl, hp]
        | cons q qs =>
          rw [show (match (p :: q :: qs : List (List Char)) with
              | [] => [[c]]
              | p :: ps => (c :: p) :: ps) = (c :: p) :: q :: qs from rfl]
          rw [show joinU ((c :: p) :: q :: qs)
              = (c :: p) ++ '_' :: joinU (q :: qs) from rfl]
          rw [List.cons_append]
          rw [show p ++ '_' :: joinU (q :: qs) = cs from ih]

def heartbeatName : List Char := "heartbeat".toList

def chunkKindC : List Char := "chunk".toList

def progressKindC : List Char := "progress".toList

def errorKindC : List Char := "error".toList

def endKindC : List Char := "end".toList

def heartbeatKindC : List Char := "heartbeat".toList

/-- One tagged record extracted from the transport byte stream:
the SSE `event:` name and its `data:` payload. -/
structure SSERecord where
  event : List Char
  data : String
deriving DecidableEq, Repr

/-- Payload of an event delivered to the consumer's `onEvent` callback. -/
inductive ClientPayload where
  | raw (data : String) : ClientPayload
  | heartbeatD : ClientPayload
  | streamEndErr : ClientPayload
  | reconnectingP (attempt maxAttempts : ℕ) : ClientPayload
  | reconnectFailedErr : ClientPayload
deriving DecidableEq, Repr

/-- The `retryable` flag carried by a synthesized payload. -/
def payloadRetryable : ClientPayload → Option Bool
  | ClientPayload.streamEndErr => some true
  | ClientPayload.reconnectFailedErr => some true
  | _ => none

/-- The `SSEEventData` delivered to `onEvent`. -/
structure ClientEvent where
  modelId : List Char
  type : List Char
  data : ClientPayload
deriving DecidableEq, Repr

/-- JavaScript `Set.add` on the `completedModels` set. -/
def insertSet (x : List Char) (s : List (List Char)) : List (List Char) :=
  if x ∈ s then s else s ++ [x]

/-- `handleSSEEvent(event, data)`: heartbeats pass through without a target;
other event names are split on `'_'`, the last segment is the event kind and
the rest rejoined is the model id; an unsplittable name is dropped; the event
is delivered and, for `end`/`error`, the model id is added to
`completedModels`. -/
def handleSSEEvent (completed : List (List Char)) (event : List Char)
    (data : String) : List (List Char) × List ClientEvent :=
  if event = heartbeatName then
    (completed, [⟨[], heartbeatKindC, ClientPayload.heartbeatD⟩])
  else
    let parts := splitU event
    if parts.length < 2 then (completed, [])
    else
      let modelId := joinU parts.dropLast
      let eventType := parts.getLastD []
      let completed' :=
        if eventType = endKindC ∨ eventType = errorKindC then
          insertSet modelId completed
        else completed
      (completed', [⟨modelId, eventType, ClientPayload.raw data⟩])

/-- Does record `r` parse to a terminal (`end`/`error`) event for model `m`? -/
def isTerminalRecFor (m : List Char) (r : SSERecord) : Bool :=
  if r.event = heartbeatName then false
  else
    let parts := splitU r.event
    if parts.length < 2 then false
    else
      joinU parts.dropLast == m &&
        (parts.getLastD [] == endKindC || parts.getLastD [] == errorKindC)

/-- Number of terminal events for model `m` in a delivered event list. -/
def terminalCount (m : List Char) (evs : List ClientEvent) : ℕ :=
  evs.countP
    (fun ev => ev.modelId == m && (ev.type == endKindC || ev.type == errorKindC))

/-- `handleStreamEnd(expectedModels)`: synthesizes a retryable error for
every expected model not yet in `completedModels`. -/
def handleStreamEnd (expectedModels completed : List (List Char)) :
    List ClientEvent :=
  (expectedModels.filter (fun x => ¬ x ∈ completed)).map
    (fun x => ⟨x, errorKindC, ClientPayload.streamEndErr⟩)

def maxReconnectAttempts : ℕ := 5

/-- Result of `handleUnexpectedDisconnection(expectedModels)`: the events
delivered, the updated `reconnectAttempts` counter, the backoff delays
awaited, and the reconnect requests actually issued to the server. -/
structure DropResult where
  events : List ClientEvent
  reconnectAttempts : ℕ
  delays : List ℕ
  reconnectRequests : List (List (List Char))
deriving DecidableEq, Repr

/-- `handleUnexpectedDisconnection(expectedModels)`: when the reconnect
budget is exhausted it falls back to `handleStreamEnd`; otherwise it bumps
the attempt counter, waits `min(1000 * 2^(attempt-1), 10000)` ms, emits a
reconnecting progress notice and then — issuing no request — emits a
retryable error for every model not yet complete. -/
def handleUnexpectedDisconnection (expectedModels completed : List (List Char))
    (reconnectAttempts : ℕ) : DropResult :=
  if maxReconnectAttempts ≤ reconnectAttempts then
    { events := handleStreamEnd expectedModels completed,
      reconnectAttempts := reconnectAttempts, delays := [],
      reconnectRequests := [] }
  else
    let a := reconnectAttempts + 1
    let d := min (1000 * 2 ^ (a - 1)) 10000
    let incomplete := expectedModels.filter (fun x => ¬ x ∈ completed)
    let errs : List ClientEvent :=
      if 0 < incomplete.length then
        incomplete.map (fun x => ⟨x, errorKindC, ClientPayload.reconnectFailedErr⟩)
      else []
    { events :=
        ⟨[], progressKindC, ClientPayload.reconnectingP a maxReconnectAttempts⟩
          :: errs,
      reconnectAttempts := a, delays := [d], reconnectRequests := [] }

/-- The consumer's per-connection state: `completedModels` and the events
delivered so far. -/
structure ClientState where
  completed : List (List Char)
  delivered : List ClientEvent
deriving DecidableEq, Repr

/-- Process one parsed record. -/
def stepRecord (st : ClientState) (r : SSERecord) : ClientState :=
  let out := handleSSEEvent st.completed r.event r.data
  ⟨out.1, st.delivered ++ out.2⟩

/-- Process one transport chunk (a batch of records). -/
def processChunk (st : ClientState) (chunk : List SSERecord) : ClientState :=
  chunk.foldl stepRecord st

/-- Result of one `processStream` run. -/
structure StreamRun where
  completed : List (List Char)
  delivered : List ClientEvent
  reconnectAttempts : ℕ
  reconnectRequests : List (List (List Char))
deriving DecidableEq, Repr

/-- How the read loop of `processStream` ends once the trace is exhausted:
the transport reports `done`; or the pending `reader.read()` rejects with an
`AbortError` (raised when `disconnect()` aborts the controller — explicit
cancellation, the 60 s `setupTimeout`, or the staleness check of
`startHeartbeat`), which the catch block swallows; or it rejects with some
other error, for which the catch consults `shouldReconnect` (its result is
the `reconnectable` flag). -/
inductive StreamEndCause where
  | done : StreamEndCause
  | abortError : StreamEndCause
  | readError (reconnectable : Bool) : StreamEndCause
deriving DecidableEq, Repr

/-- `processStream(expectedModels)`: reads chunks; after each chunk, if the
completed-set size equals the expected count the manager disconnects.  When
the trace is exhausted: on `done` with models missing and `reconnectOnDrop`
set it runs `handleUnexpectedDisconnection`, on `done` otherwise
`handleStreamEnd`; on a swallowed `AbortError` it returns with no further
events; on another read error it runs `handleUnexpectedDisconnection` when
`reconnectOnDrop && shouldReconnect(error)` holds and otherwise rethrows,
emitting nothing from this run. -/
def processStream (expectedModels : List (List Char)) (reconnectOnDrop : Bool)
    (reconnectAttempts : ℕ) :
    List (List SSERecord) → StreamEndCause → ClientState → StreamRun
  | [], cause, st =>
    match cause with
    | StreamEndCause.done =>
      if st.completed.length < expectedModels.length ∧ reconnectOnDrop then
        let dr := handleUnexpectedDisconnection expectedModels st.completed
          reconnectAttempts
        { completed := st.completed, delivered := st.delivered ++ dr.events,
          reconnectAttempts := dr.reconnectAttempts,
          reconnectRequests := dr.reconnectRequests }
      else
        { completed := st.completed,
          delivered := st.delivered
            ++ handleStreamEnd expectedModels st.completed,
          reconnectAttempts := reconnectAttempts, reconnectRequests := [] }
    | StreamEndCause.abortError =>
      { completed := st.completed, delivered := st.delivered,
        reconnectAttempts := reconnectAttempts, reconnectRequests := [] }
    | StreamEndCause.readError reconnectable =>
      if reconnectOnDrop = true ∧ reconnectable = true then
        let dr := handleUnexpectedDisconnection expectedModels st.completed
          reconnectAttempts
        { completed := st.completed, delivered := st.delivered ++ dr.events,
          reconnectAttempts := dr.reconnectAttempts,
          reconnectRequests := dr.reconnectRequests }
      else
        { completed := st.completed, delivered := st.delivered,
          reconnectAttempts := reconnectAttempts, reconnectRequests := [] }
  | chunk :: rest, cause, st =>
    let st1 := processChunk st chunk
    if st1.completed.length = expectedModels.length then
      { completed := st1.completed, delivered := st1.delivered,
        reconnectAttempts := reconnectAttempts, reconnectRequests := [] }
    else
      processStream expectedModels reconnectOnDrop reconnectAttempts rest
        cause st1

/-- A fresh connection consuming the given chunks until the transport ends
with the given cause. -/
def runConnection (expectedModels : List (List Char)) (reconnectOnDrop : Bool)
    (chunks : List (List SSERecord)) (cause : StreamEndCause) : StreamRun :=
  processStream expectedModels reconnectOnDrop 0 chunks cause ⟨[], []⟩

def cA : List Char := "a".toList

def cB : List Char := "b".toList

def cC : List Char := "c".toList

def cD : List Char := "d".toList

/-- C2 evidence: the Connection Manager's `handleUnexpectedDisconnection`
never issues a reconnect request (for any state), and on a drop with 2 of 4
targets complete and a fresh attempt counter it waits one backoff delay
(1000 ms) and then immediately synthesizes `error(retryable=true)` for
exactly the two incomplete targets, with the 5-attempt budget not exhausted.
This exhibits the divergence from the claimed reconnect-then-synthesize
behaviour. -/
theorem spec_c2_reconnect_stub :
    (∀ (expectedModels completed : List (List Char)) (k : ℕ),
      (handleUnexpectedDisconnection expectedModels completed k).reconnectRequests
        = []) ∧
    (handleUnexpectedDisconnection [cA, cB, cC, cD] [cA, cB] 0).reconnectAttempts
        = 1 ∧
    1 < maxReconnectAttempts ∧
    (handleUnexpectedDisconnection [cA, cB, cC, cD] [cA, cB] 0).delays
        = [1000] ∧
    (handleUnexpectedDisconnection [cA, cB, cC, cD] [cA, cB] 0).events
      = [⟨[], progressKindC, ClientPayload.reconnectingP 1 maxReconnectAttempts⟩,
         ⟨cC, errorKindC, ClientPayload.reconnectFailedErr⟩,
         ⟨cD, errorKindC, ClientPayload.reconnectFailedErr⟩] ∧
    payloadRetryable ClientPayload.reconnectFailedErr = some true := by
  refine ⟨?_, by decide, by decide, by decide, by decide, rfl⟩
  intro expectedModels completed k
  unfold handleUnexpectedDisconnection
  split_ifs <;> rfl

/-! ### Per-record lemmas for the terminal-delivery proof -/

lemma mem_insertSet (x y : List Char) (s : List (List Char)) :
    y ∈ insertSet x s ↔ y ∈ s ∨ y = x := by
  unfold insertSet
  split_ifs with h
  · constructor
    · exact fun hy => Or.inl hy
    · rintro (hy | rfl)
      · exact hy
      · exact h
  · simp

lemma insertSet_nodup (x : List Char) (s : List (List Char)) (h : s.Nodup) :
    (insertSet x s).Nodup := by
  unfold insertSet
  split_ifs with hx
  · exact h
  · rw [List.nodup_append]
    exact ⟨h, List.nodup_singleton x, by
      intro a ha hb
      simp only [List.mem_singleton] at hb
      exact hx (hb ▸ ha)⟩

lemma handleSSEEvent_events (completed : List (List Char)) (r : SSERecord)
    (m : List Char) :
    terminalCount m (handleSSEEvent completed r.event r.data).2
      = if isTerminalRecFor m r then 1 else 0 := by
  unfold handleSSEEvent isTerminalRecFor terminalCount
  by_cases h1 : r.event = heartbeatName
  · rw [if_pos h1, if_pos h1]
    have hhb : (heartbeatKindC == endKindC || heartbeatKindC == errorKindC)
        = false := by decide
    simp [List.countP_cons, hhb]
  · rw [if_neg h1, if_neg h1]
    by_cases h2 : (splitU r.event).length < 2
    · rw [if_pos h2, if_pos h2]
      rfl
    · rw [if_neg h2, if_neg h2]
      simp only [List.countP_cons, List.countP_nil]
      by_cases hm : joinU (splitU r.event).dropLast == m
      · by_cases het : ((splitU r.event).getLastD [] == endKindC
            || (splitU r.event).getLastD [] == errorKindC)
        · rw [hm, het]
          simp [hm, het]
        · simp only [Bool.not_eq_true] at het
          rw [hm, het]
          simp [hm, het]
      · simp only [Bool.not_eq_true] at hm
        rw [hm]
        simp [hm]

lemma handleSSEEvent_completed (completed : List (List Char)) (r : SSERecord)
    (m : List Char) :
    m ∈ (handleSSEEvent completed r.event r.data).1
      ↔ m ∈ completed ∨ isTerminalRecFor m r = true := by
  unfold handleSSEEvent isTerminalRecFor
  by_cases h1 : r.event = heartbeatName
  · rw [if_pos h1, if_pos h1]
    simp
  · rw [if_neg h1, if_neg h1]
    by_cases h2 : (splitU r.event).length < 2
    · rw [if_pos h2, if_pos h2]
      simp
    · rw [if_neg h2, if_neg h2]
      simp only []
      by_cases h3 : (splitU r.event).getLastD [] = endKindC
          ∨ (splitU r.event).getLastD [] = errorKindC
      · rw [if_pos h3]
        rw [mem_insertSet]
        have het : ((splitU r.event).getLastD [] == endKindC
            || (splitU r.event).getLastD [] == errorKindC) = true := by
          rcases h3 with h | h
          · have hb : ((splitU r.event).getLastD [] == endKindC) = true :=
              beq_iff_eq.mpr h
            rw [hb, Bool.true_or]
          · have hb : ((splitU r.event).getLastD [] == errorKindC) = true :=
              beq_iff_eq.mpr h
            rw [hb, Bool.or_true]
        rw [het]
        constructor
        · rintro (hc | rfl)
          · exact Or.inl hc
          · exact Or.inr (by simp)
        · rintro (hc | hb)
          · exact Or.inl hc
          · right
            have hx : (joinU (splitU r.event).dropLast == m) = true := by
              cases hj : (joinU (splitU r.event).dropLast == m)
              · rw [hj] at hb
                simp at hb
              · rfl
            exact (eq_of_beq hx).symm
      · rw [if_neg h3]
        have het : ((splitU r.event).getLastD [] == endKindC
            || (splitU r.event).getLastD [] == errorKindC) = false := by
          rw [Bool.or_eq_false_iff]
          constructor
          · rw [beq_eq_false_iff_ne]
            intro hx
            exact h3 (Or.inl hx)
          · rw [beq_eq_false_iff_ne]
            intro hx
            exact h3 (Or.inr hx)
        rw [het]
        simp

lemma handleSSEEvent_nodup (completed : List (List Char)) (r : SSERecord)
    (h : completed.Nodup) :
    (handleSSEEvent completed r.event r.data).1.Nodup := by
  unfold handleSSEEvent
  by_cases h1 : r.event = heartbeatName
  · rw [if_pos h1]
    exact h
  · rw [if_neg h1]
    by_cases h2 : (splitU r.event).length < 2
    · rw [if_pos h2]
      exact h
    · rw [if_neg h2]
      simp only []
      split_ifs with h3
      · exact insertSet_nodup _ _ h
      · exact h

lemma terminalCount_append (m : List Char) (e1 e2 : List ClientEvent) :
    terminalCount m (e1 ++ e2) = terminalCount m e1 + terminalCount m e2 := by
  unfold terminalCount
  simp [List.countP_append]

lemma countP_beq_zero (l : List (List Char)) (m : List Char)
    (h : ∀ x ∈ l, x ≠ m) :
    l.countP (fun x => x == m) = 0 := by
  rw [List.countP_eq_zero]
  intro a ha
  simp only [beq_iff_eq]
  exact h a ha

lemma countP_beq_filter (l completed : List (List Char)) (m : List Char)
    (hnd : l.Nodup) (hm : m ∈ l) :
    (l.filter (fun x => ¬ x ∈ completed)).countP (fun x => x == m)
      = if m ∈ completed then 0 else 1 := by
  induction l with
  | nil => simp at hm
  | cons a l ih =>
    rw [List.nodup_cons] at hnd
    rcases hnd with ⟨ha, hl⟩
    rcases List.mem_cons.mp hm with rfl | hml
    · by_cases hac : m ∈ completed
      · rw [List.filter_cons, if_neg (by simp [hac]), if_pos hac]
        apply countP_beq_zero
        intro x hx
        rcases List.mem_filter.mp hx with ⟨hxl, _⟩
        intro hxa
        exact ha (hxa ▸ hxl)
      · rw [List.filter_cons, if_pos (by simp [hac]), if_neg hac,
          List.countP_cons]
        have h0 : (l.filter (fun x => ¬ x ∈ completed)).countP
            (fun x => x == m) = 0 := by
          apply countP_beq_zero
          intro x hx
          rcases List.mem_filter.mp hx with ⟨hxl, _⟩
          intro hxa
          exact ha (hxa ▸ hxl)
        rw [h0]
        simp
    · have hne : (a == m) = false := by
        rw [beq_eq_false_iff_ne]
        intro ham
        exact ha (ham ▸ hml)
      rw [List.filter_cons]
      by_cases hac : a ∈ completed
      · rw [if_neg (by simp [hac])]
        exact ih hl hml
      · rw [if_pos (by simp [hac]), List.countP_cons, hne]
        rw [ih hl hml]
        simp

lemma terminalCount_err_map (expected completed : List (List Char))
    (pl : ClientPayload) (m : List Char)
    (hex : expected.Nodup) (hm : m ∈ expected) :
    terminalCount m ((expected.filter (fun x => ¬ x ∈ completed)).map
        (fun x => (⟨x, errorKindC, pl⟩ : ClientEvent)))
      = if m ∈ completed then 0 else 1 := by
  unfold terminalCount
  rw [List.countP_map]
  have hcong : ∀ x ∈ expected.filter (fun x => ¬ x ∈ completed),
      (((fun ev => ev.modelId == m && (ev.type == endKindC || ev.type == errorKindC))
          ∘ fun x => (⟨x, errorKindC, pl⟩ : ClientEvent)) x = true
        ↔ (fun x => x == m) x = true) := by
    intro x _
    have hor : ((errorKindC == endKindC) || (errorKindC == errorKindC)) = true := by
      decide
    simp only [Function.comp_apply]
    rw [hor, Bool.and_true]
  rw [List.countP_congr hcong]
  exact countP_beq_filter expected completed m hex hm

lemma terminalCount_handleStreamEnd (expected completed : List (List Char))
    (m : List Char) (hex : expected.Nodup) (hm : m ∈ expected) :
    terminalCount m (handleStreamEnd expected completed)
      = if m ∈ completed then 0 else 1 := by
  unfold handleStreamEnd
  exact terminalCount_err_map expected completed ClientPayload.streamEndErr m hex hm

lemma mem_of_nodup_subset_length {l l' : List (List Char)}
    (h1 : l.Nodup) (h2 : l'.Nodup) (hsub : ∀ x ∈ l, x ∈ l')
    (hlen : l'.length ≤ l.length) : ∀ x ∈ l', x ∈ l := by
  intro x hx
  have hfs : l.toFinset ⊆ l'.toFinset := by
    intro a ha
    exact List.mem_toFinset.mpr (hsub a (List.mem_toFinset.mp ha))
  have hc1 : l.toFinset.card = l.length := List.toFinset_card_of_nodup h1
  have hc2 : l'.toFinset.card = l'.length := List.toFinset_card_of_nodup h2
  have heq : l.toFinset = l'.toFinset :=
    Finset.eq_of_subset_of_card_le hfs (by omega)
  have hxl : x ∈ l.toFinset := by
    rw [heq]
    exact List.mem_toFinset.mpr hx
  exact List.mem_toFinset.mp hxl

/-- The running invariant of the terminal-delivery proof: `completed` is a
set of expected models; each model has had a terminal event delivered iff it
is in `completed`; the delivered terminals plus the terminal records still to
come never exceed one per model; every remaining terminal record targets an
expected model. -/
def InvC (expected : List (List Char)) (st : ClientState)
    (rem : List SSERecord) : Prop :=
  st.completed.Nodup ∧
  (∀ x ∈ st.completed, x ∈ expected) ∧
  (∀ m, terminalCount m st.delivered = if m ∈ st.completed then 1 else 0) ∧
  (∀ m, terminalCount m st.delivered
      + rem.countP (fun r => isTerminalRecFor m r) ≤ 1) ∧
  (∀ r ∈ rem, ∀ x, isTerminalRecFor x r = true → x ∈ expected)

lemma InvC_step (expected : List (List Char)) (st : ClientState)
    (r : SSERecord) (rem : List SSERecord)
    (h : InvC expected st (r :: rem)) : InvC expected (stepRecord st r) rem := by
  obtain ⟨hnd, hsub, hcount, hbound, hexp⟩ := h
  have hdel : (stepRecord st r).delivered
      = st.delivered ++ (handleSSEEvent st.completed r.event r.data).2 := rfl
  have hcomp : (stepRecord st r).completed
      = (handleSSEEvent st.completed r.event r.data).1 := rfl
  refine ⟨?_, ?_, ?_, ?_, ?_⟩
  · rw [hcomp]
    exact handleSSEEvent_nodup _ _ hnd
  · intro x hx
    rw [hcomp] at hx
    rcases (handleSSEEvent_completed _ r x).mp hx with hx' | ht
    · exact hsub x hx'
    · exact hexp r (List.mem_cons_self r rem) x ht
  · intro m
    rw [hdel, terminalCount_append, handleSSEEvent_events, hcomp, hcount m]
    by_cases ht : isTerminalRecFor m r = true
    · have hb := hbound m
      rw [List.countP_cons, if_pos ht] at hb
      have hcnt0 : (if m ∈ st.completed then 1 else 0) = 0 := by
        have := hcount m
        omega
      have hmem : m ∉ st.completed := by
        intro hmc
        rw [if_pos hmc] at hcnt0
        exact one_ne_zero hcnt0
      rw [if_neg hmem, if_pos ht,
        if_pos ((handleSSEEvent_completed _ r m).mpr (Or.inr ht))]
    · have hmemiff : m ∈ (handleSSEEvent st.completed r.event r.data).1
          ↔ m ∈ st.completed := by
        rw [handleSSEEvent_completed]
        constructor
        · rintro (hc | hb)
          · exact hc
          · exact absurd hb ht
        · exact Or.inl
      rw [if_neg ht]
      by_cases hmc : m ∈ st.completed
      · rw [if_pos hmc, if_pos (hmemiff.mpr hmc)]
      · rw [if_neg hmc, if_neg (fun hx => hmc (hmemiff.mp hx))]
  · intro m
    have hb := hbound m
    rw [List.countP_cons] at hb
    rw [hdel, terminalCount_append, handleSSEEvent_events]
    by_cases ht : isTerminalRecFor m r = true
    · rw [if_pos ht] at hb ⊢
      omega
    · rw [if_neg ht] at hb ⊢
      omega
  · intro r' hr' x hx
    exact hexp r' (List.mem_cons_of_mem r hr') x hx

lemma InvC_chunk (expected : List (List Char)) :
    ∀ (chunk : List SSERecord) (st : ClientState) (rem : List SSERecord),
      InvC expected st (chunk ++ rem) →
      InvC expected (processChunk st chunk) rem := by
  intro chunk
  induction chunk with
  | nil =>
    intro st rem h
    simpa [processChunk] using h
  | cons r chunk ih =>
    intro st rem h
    have h1 : InvC expected (stepRecord st r) (chunk ++ rem) :=
      InvC_step expected st r (chunk ++ rem) (by simpa using h)
    have h2 := ih (stepRecord st r) rem h1
    simpa [processChunk] using h2

/-! ### Well-formed server records and the end-of-stream cases -/

/-- The event kinds emitted by the server for a model. -/
def serverKindsC : List (List Char) :=
  [chunkKindC, progressKindC, errorKindC, endKindC]

/-- A record as the server emits it: a heartbeat, or `modelId_kind` for an
expected model and a server kind. -/
def wfRec (expected : List (List Char)) (r : SSERecord) : Prop :=
  r.event = heartbeatName ∨
    ∃ m k, m ∈ expected ∧ k ∈ serverKindsC ∧ r.event = m ++ '_' :: k

lemma dropLast_append_single {α : Type} (A : List α) (k : α) :
    (A ++ [k]).dropLast = A := by
  induction A with
  | nil => rfl
  | cons a A ih =>
    cases A with
    | nil => rfl
    | cons b B =>
      simp only [List.cons_append, List.dropLast_cons₂]
      rw [← List.cons_append, ih]

lemma getLastD_append_single {α : Type} (A : List α) (k d : α) :
    (A ++ [k]).getLastD d = k := by
  induction A generalizing d with
  | nil => rfl
  | cons a A ih =>
    cases A with
    | nil => rfl
    | cons b B =>
      rw [show ((a :: (b :: B)) ++ [k]) = a :: ((b :: B) ++ [k]) from rfl,
        List.getLastD_cons]
      exact ih a

lemma isTerminalRecFor_parse (m k x : List Char) (hk : '_' ∉ k) (d : String) :
    isTerminalRecFor x ⟨m ++ '_' :: k, d⟩
      = (m == x && (k == endKindC || k == errorKindC)) := by
  unfold isTerminalRecFor
  have hu : ('_' : Char) ∈ m ++ '_' :: k :=
    List.mem_append.mpr (Or.inr (List.mem_cons_self _ _))
  have hne : ¬ (m ++ '_' :: k = heartbeatName) := by
    intro heq
    rw [heq] at hu
    exact absurd hu (by decide)
  rw [if_neg hne]
  simp only []
  rw [splitU_sep, splitU_no_sep k hk]
  have hlen : ¬ ((splitU m ++ [k]).length < 2) := by
    have hpos : 0 < (splitU m).length :=
      List.length_pos.mpr (splitU_ne_nil m)
    rw [List.length_append, List.length_cons, List.length_nil]
    omega
  rw [if_neg hlen, dropLast_append_single, getLastD_append_single,
    joinU_splitU]

lemma wfRec_terminal_mem (expected : List (List Char)) (r : SSERecord)
    (hwf : wfRec expected r) (x : List Char)
    (hx : isTerminalRecFor x r = true) : x ∈ expected := by
  rcases hwf with hhb | ⟨m, k, hm, hk, hev⟩
  · unfold isTerminalRecFor at hx
    rw [if_pos hhb] at hx
    exact absurd hx (by simp)
  · have hknu : '_' ∉ k := by
      simp [serverKindsC] at hk
      rcases hk with rfl | rfl | rfl | rfl <;> decide
    cases r with
    | mk ev dat =>
      simp only [] at hev
      subst hev
      rw [isTerminalRecFor_parse m k x hknu dat] at hx
      have hmx : (m == x) = true := by
        cases hj : (m == x)
        · rw [hj] at hx
          simp at hx
        · rfl
      exact (eq_of_beq hmx) ▸ hm

lemma terminalCount_hud (expected completed : List (List Char)) (att : ℕ)
    (m : List Char) (hex : expected.Nodup) (hm : m ∈ expected) :
    terminalCount m (handleUnexpectedDisconnection expected completed att).events
      = if m ∈ completed then 0 else 1 := by
  unfold handleUnexpectedDisconnection
  by_cases h2 : maxReconnectAttempts ≤ att
  · rw [if_pos h2]
    exact terminalCount_handleStreamEnd expected completed m hex hm
  · rw [if_neg h2]
    show terminalCount m
        (⟨[], progressKindC,
            ClientPayload.reconnectingP (att + 1) maxReconnectAttempts⟩
          :: (if 0 < (expected.filter (fun x => ¬ x ∈ completed)).length then
                (expected.filter (fun x => ¬ x ∈ completed)).map
                  (fun x => ⟨x, errorKindC, ClientPayload.reconnectFailedErr⟩)
              else []))
      = if m ∈ completed then 0 else 1
    unfold terminalCount
    simp only [List.countP_cons]
    have hpr : ((([] : List Char) == m)
        && ((progressKindC == endKindC) || (progressKindC == errorKindC)))
        = false := by
      have hp2 : ((progressKindC == endKindC) || (progressKindC == errorKindC))
          = false := by decide
      rw [hp2, Bool.and_false]
    rw [hpr]
    simp only [Bool.false_eq_true, if_false, add_zero]
    by_cases hmc : m ∈ completed
    · rw [if_pos hmc]
      split_ifs with h3
      · have hh := terminalCount_err_map expected completed
          ClientPayload.reconnectFailedErr m hex hm
        unfold terminalCount at hh
        rw [hh, if_pos hmc]
      · rfl
    · rw [if_neg hmc]
      have hmf : m ∈ expected.filter (fun x => ¬ x ∈ completed) :=
        List.mem_filter.mpr ⟨hm, by simp [hmc]⟩
      have hpos : 0 < (expected.filter (fun x => ¬ x ∈ completed)).length :=
        List.length_pos.mpr (fun hnil => by
          rw [hnil] at hmf
          exact absurd hmf (List.not_mem_nil m))
      rw [if_pos hpos]
      have hh := terminalCount_err_map expected completed
        ClientPayload.reconnectFailedErr m hex hm
      unfold terminalCount at hh
      rw [hh, if_neg hmc]

lemma processStream_nil_case (expected : List (List Char)) (drop : Bool)
    (att : ℕ) (st : ClientState) (hex : expected.Nodup)
    (hinv : InvC expected st []) :
    ∀ m ∈ expected,
      terminalCount m
        (processStream expected drop att [] StreamEndCause.done st).delivered
        = 1 := by
  obtain ⟨hnd, hsub, hcount, _, _⟩ := hinv
  intro m hm
  simp only [processStream]
  split_ifs with h1
  · show terminalCount m (st.delivered
      ++ (handleUnexpectedDisconnection expected st.completed att).events) = 1
    rw [terminalCount_append, hcount m,
      terminalCount_hud expected st.completed att m hex hm]
    by_cases hmc : m ∈ st.completed
    · rw [if_pos hmc, if_pos hmc]
    · rw [if_neg hmc, if_neg hmc]
  · show terminalCount m (st.delivered
      ++ handleStreamEnd expected st.completed) = 1
    rw [terminalCount_append, hcount m,
      terminalCount_handleStreamEnd expected st.completed m hex hm]
    by_cases hmc : m ∈ st.completed
    · rw [if_pos hmc, if_pos hmc]
    · rw [if_neg hmc, if_neg hmc]

lemma processStream_ok (expected : List (List Char)) (drop : Bool) (att : ℕ)
    (hex : expected.Nodup) :
    ∀ (chunks : List (List SSERecord)) (st : ClientState),
      InvC expected st chunks.flatten →
      ∀ m ∈ expected,
        terminalCount m
          (processStream expected drop att chunks StreamEndCause.done
            st).delivered = 1 := by
  intro chunks
  induction chunks with
  | nil =>
    intro st hinv m hm
    exact processStream_nil_case expected drop att st hex hinv m hm
  | cons chunk rest ih =>
    intro st hinv m hm
    have hinv1 : InvC expected (processChunk st chunk) rest.flatten :=
      InvC_chunk expected chunk st rest.flatten
        (by simpa [List.flatten_cons] using hinv)
    simp only [processStream]
    split_ifs with h1
    · obtain ⟨hnd1, hsub1, hcount1, _, _⟩ := hinv1
      have hall := mem_of_nodup_subset_length hnd1 hex hsub1 (by omega)
      have hmemc := hall m hm
      have hc := hcount1 m
      rw [if_pos hmemc] at hc
      exact hc
    · exact ih (processChunk st chunk) hinv1 m hm

/-- C1 (amended): each target receives exactly one terminal event, provided
the manager's read loop runs to the transport's end-of-stream (`done`) — the
exactly-one guarantee does not survive a mid-stream abort of the read (an
explicit cancellation, the 60 s `setupTimeout`, or the staleness
self-disconnect), whose `AbortError` the catch block swallows with no
synthesis.  Server side: `makeAIRequest` emits exactly one terminal (`end`
or `error`) message per model, for every upstream behaviour.  Consumer side:
on any transport trace of well-formed server records carrying at most one
terminal record per target (which the server half guarantees) that ends with
`done`, the Connection Manager delivers exactly one terminal event per
expected target — one parsed from the stream for targets whose terminal
record arrives, one synthesized by
`handleStreamEnd`/`handleUnexpectedDisconnection` for the rest — and never
a second one for a target already in `completedModels`. -/
theorem spec_c1_exactly_one_terminal :
    (∀ (m : String) (i : ℕ) (upstream : ℕ → FetchOutcome) (j429 jNet : ℕ → ℚ),
      (makeAIRequest m i upstream j429 jNet).events.countP
          (fun ev => isTerminalEventFor m ev) = 1) ∧
    (∀ (expected : List (List Char)) (reconnectOnDrop : Bool)
        (chunks : List (List SSERecord)),
      expected.Nodup →
      (∀ r ∈ chunks.flatten, wfRec expected r) →
      (∀ m, chunks.flatten.countP (fun r => isTerminalRecFor m r) ≤ 1) →
      ∀ m ∈ expected,
        terminalCount m
          (runConnection expected reconnectOnDrop chunks
            StreamEndCause.done).delivered = 1) := by
  constructor
  · exact makeAIRequest_one_terminal
  · intro expected reconnectOnDrop chunks hex hwf hone m hm
    apply processStream_ok expected reconnectOnDrop 0 hex chunks ⟨[], []⟩ _ m hm
    refine ⟨List.nodup_nil, ?_, ?_, ?_, ?_⟩
    · intro x hx
      exact absurd hx (List.not_mem_nil x)
    · intro m0
      show (0 : ℕ) = if m0 ∈ ([] : List (List Char)) then 1 else 0
      simp
    · intro m0
      have := hone m0
      show (0 : ℕ) + chunks.flatten.countP (fun r => isTerminalRecFor m0 r) ≤ 1
      omega
    · intro r hr x hx
      exact wfRec_terminal_mem expected r (hwf r hr) x hx

def recAEnd : SSERecord := ⟨cA ++ '_' :: endKindC, ""⟩

/-- C1 counterexample: the claim as stated is false on the code.  Expected
models `a` and `b`, `reconnectOnDrop` enabled; the transport delivers one
chunk holding only `a`'s `a_end` record, then the pending read rejects with
an `AbortError` — exactly what `disconnect()` causes when the 60 s
`setupTimeout` or the staleness check of `startHeartbeat` fires mid-stream.
The catch block swallows the `AbortError` and returns without calling
`handleStreamEnd` or `handleUnexpectedDisconnection`, so target `b` ends the
run with zero terminal events (not one) and no reconnect request is ever
issued. -/
theorem spec_c1_counterexample :
    terminalCount cB (runConnection [cA, cB] true [[recAEnd]]
        StreamEndCause.abortError).delivered = 0 ∧
    terminalCount cA (runConnection [cA, cB] true [[recAEnd]]
        StreamEndCause.abortError).delivered = 1 ∧
    (runConnection [cA, cB] true [[recAEnd]]
        StreamEndCause.abortError).reconnectRequests = [] := by
  exact ⟨by decide, by decide, by decide⟩

/-- Witness for C1's consumer half at a concrete trace: one expected model
`a` whose single `a_end` record arrives in one chunk, the transport then
reporting `done`. -/
theorem spec_c1_exactly_one_terminal_witness :
    ([cA].Nodup ∧
      (∀ m, ([[recAEnd]] : List (List SSERecord)).flatten.countP
          (fun r => isTerminalRecFor m r) ≤ 1)) ∧
    (∀ m ∈ [cA],
      terminalCount m (runConnection [cA] true [[recAEnd]]
        StreamEndCause.done).delivered = 1) := by
  have hwf : ∀ r ∈ ([[recAEnd]] : List (List SSERecord)).flatten, wfRec [cA] r := by
    intro r hr
    have hr' : r = recAEnd := by simpa using hr
    subst hr'
    exact Or.inr ⟨cA, endKindC, by decide, by decide, rfl⟩
  have hone : ∀ m, ([[recAEnd]] : List (List SSERecord)).flatten.countP
      (fun r => isTerminalRecFor m r) ≤ 1 := by
    intro m
    show List.countP (fun r => isTerminalRecFor m r) (recAEnd :: []) ≤ 1
    rw [List.countP_cons]
    cases h : isTerminalRecFor m recAEnd <;> simp [h]
  exact ⟨⟨by decide, hone⟩,
    spec_c1_exactly_one_terminal.2 [cA] true [[recAEnd]] (by decide) hwf hone⟩
